import Mathlib

/-!
# Verification of the hdl21 elaborator (`src/hdl21/elab.py`)

A shallow embedding of the elaboration pipeline of the hdl21 hardware
description library.  The IR (Modules, Signals, InterfaceInstances,
Instances, GeneratorCalls) is modelled as a heap of records addressed by
numeric identifiers, so that Python object identity becomes identifier
equality.  Hierarchy traversals, which in Python terminate only thanks to
the host recursion limit, are modelled with explicit fuel; running out of
fuel is the fatal `RecursionError`.  Fallible operations return `Except`.

Data shapes of collaborator files absent from `src/` (module.py, signal.py,
instance.py, interface.py, generator.py, params.py) are modelled from the
specification, and marked as such in their doc comments.  All algorithms
are translated from `src/hdl21/elab.py`.
-/

set_option autoImplicit false

namespace Hdl21

/-! ## Association lists

Python `dict`s are insertion-ordered maps; we model them as association
lists.  `aupd` is `d[k] = v` (replace in place, else append), `aerase` is
`d.pop(k)`, `alookup` is `d.get(k)`. -/

variable {κ : Type} {α : Type}

def alookup [DecidableEq κ] (k : κ) : List (κ × α) → Option α
  | [] => none
  | (k', v) :: t => if k = k' then some v else alookup k t

def aupd [DecidableEq κ] (k : κ) (v : α) : List (κ × α) → List (κ × α)
  | [] => [(k, v)]
  | (k', v') :: t => if k = k' then (k', v) :: t else (k', v') :: aupd k v t

def aerase [DecidableEq κ] (k : κ) : List (κ × α) → List (κ × α)
  | [] => []
  | (k', v') :: t => if k = k' then t else (k', v') :: aerase k t

def akeys (l : List (κ × α)) : List κ := l.map (·.1)

@[simp] theorem alookup_nil [DecidableEq κ] (k : κ) : alookup k ([] : List (κ × α)) = none := rfl

@[simp] theorem alookup_cons [DecidableEq κ] (k k' : κ) (v : α) (t : List (κ × α)) :
    alookup k ((k', v) :: t) = if k = k' then some v else alookup k t := rfl

theorem alookup_aupd_self [DecidableEq κ] (k : κ) (v : α) (l : List (κ × α)) :
    alookup k (aupd k v l) = some v := by
  induction l with
  | nil => simp [aupd]
  | cons h t ih =>
    obtain ⟨k', v'⟩ := h
    by_cases hk : k = k' <;> simp [aupd, hk, ih]

theorem alookup_aupd_ne [DecidableEq κ] {k k' : κ} (hne : k ≠ k') (v : α) (l : List (κ × α)) :
    alookup k (aupd k' v l) = alookup k l := by
  induction l with
  | nil => simp [aupd, hne]
  | cons h t ih =>
    obtain ⟨k'', v''⟩ := h
    by_cases hk : k' = k'' <;> by_cases hk2 : k = k'' <;>
      simp_all [aupd]

theorem length_aerase_of_lookup [DecidableEq κ] {k : κ} {l : List (κ × α)} {v : α}
    (h : alookup k l = some v) : (aerase k l).length < l.length := by
  induction l with
  | nil => simp [alookup] at h
  | cons hd t ih =>
    obtain ⟨k', v'⟩ := hd
    by_cases hk : k = k'
    · simp [aerase, hk]
    · simp only [alookup_cons, hk, if_false] at h
      simpa [aerase, hk] using Nat.succ_lt_succ (ih h)

/-! ## Identifiers and basic enumerations

Identifiers stand for Python object identity (`id(x)`).  Every heap-allocated
IR node gets a distinct one. -/

abbrev Name := String
abbrev ModId := Nat
abbrev SigId := Nat
abbrev IntfId := Nat
abbrev InstId := Nat
abbrev CallId := Nat
abbrev GenId := Nat
/-- Generator argument values, abstracted to a type with decidable equality
(Python compares them by `==` for GeneratorCall value-equality). -/
abbrev Arg := Nat
/-- Role tags on interfaces (the source/sink labels), abstracted. -/
abbrev Role := Nat

/-- Modelled from the spec: `signal.Visibility` (signal.py is not in src/):
visibility is PORT or INTERNAL. -/
inductive Visibility where
  | PORT
  | INTERNAL
  deriving DecidableEq, Repr

/-- Modelled from the spec: `signal.PortDir` (signal.py is not in src/):
direction is one of IN, OUT, INOUT, NONE. -/
inductive PortDir where
  | INPUT
  | OUTPUT
  | INOUT
  | NONE
  deriving DecidableEq, Repr

/-- Modelled from the spec: scalar signal data as stored inside an `Interface`
definition (interface.py is not in src/): name plus optional source/sink role
annotations; visibility and direction as constructed. -/
structure SigData where
  name : Name
  vis : Visibility
  direction : PortDir
  src : Option Role
  dest : Option Role
  deriving DecidableEq, Repr

/-- Modelled from the spec: an `Interface` (bundle) definition
(interface.py is not in src/): a name, an ordered map of scalar signals and
an ordered map of nested interface fields. -/
inductive Interface where
  | mk (name : Name) (signals : List SigData) (interfaces : List (Name × Interface))

def Interface.name : Interface → Name
  | .mk n _ _ => n

def Interface.signals : Interface → List SigData
  | .mk _ s _ => s

def Interface.interfaces : Interface → List (Name × Interface)
  | .mk _ _ i => i

/-- A heap-allocated scalar `Signal` object.
Modelled from the spec (signal.py is not in src/): name, visibility,
direction, and the source/sink role annotations consulted during bundle
flattening. -/
structure Signal where
  name : Name
  vis : Visibility
  direction : PortDir
  src : Option Role
  dest : Option Role
  deriving DecidableEq, Repr

/-- The owner of a `PortRef`: an `Instance` or an `InterfaceInstance`. -/
inductive Owner where
  | inst (i : InstId)
  | intf (i : IntfId)
  deriving DecidableEq, Repr

/-- Modelled from the spec: `instance.PortRef` (instance.py is not in src/):
a symbolic `owner.portname` reference, compared and hashed by value. -/
structure PortRef where
  owner : Owner
  portname : Name
  deriving DecidableEq, Repr

/-- A heap-allocated `InterfaceInstance` object.
Modelled from the spec (interface.py is not in src/): local name, the
`Interface` definition, the port flag, the optional role tag and the map of
PortRefs handed out before elaboration. -/
structure IntfInst where
  name : Name
  of : Interface
  port : Bool
  role : Option Role
  portrefs : List (Name × PortRef)
  elaborated : Bool

/-- An instance connection value: a Signal, an InterfaceInstance, or a
symbolic PortRef. -/
inductive Conn where
  | sig (s : SigId)
  | intf (i : IntfId)
  | portref (p : PortRef)
  deriving DecidableEq, Repr

/-- The target of an `Instance` (its `of` attribute): a Module, a
GeneratorCall, a PrimitiveCall or an ExternalModuleCall (the latter two are
opaque and pass through elaboration). -/
inductive InstTarget where
  | module (m : ModId)
  | gencall (c : CallId)
  | prim
  | ext
  deriving DecidableEq, Repr

/-- A heap-allocated `Instance` object.
Modelled from the spec (instance.py is not in src/): local name, target,
connection map and the elaborated flag.  The `_resolved` slot is computed
from `of` and the generator-call results, see `Heap.resolvedOf`. -/
structure Instanc where
  name : Name
  of : InstTarget
  conns : List (Name × Conn)
  elaborated : Bool
  deriving DecidableEq, Repr

/-- Entries of a Module namespace (`module.namespace` values). -/
inductive NsObj where
  | sig (s : SigId)
  | intf (i : IntfId)
  | inst (i : InstId)
  deriving DecidableEq, Repr

/-- A heap-allocated `Module` object.
Modelled from the spec (module.py is not in src/): optional name, ordered
maps of ports, internal signals, instances and interface instances, and the
namespace holding the union of all declared names. -/
structure Module where
  name : Option Name
  ports : List (Name × SigId)
  signals : List (Name × SigId)
  instances : List (Name × InstId)
  interfaces : List (Name × IntfId)
  ns : List (Name × NsObj)
  deriving DecidableEq, Repr

/-- A heap-allocated `GeneratorCall` object: generator reference, argument,
and optional cached result Module (its `result` field). -/
structure GenCallRec where
  gen : GenId
  arg : Arg
  result : Option ModId
  deriving DecidableEq, Repr

/-- Modelled from the spec: a `Generator` (generator.py is not in src/): the
function name and whether the function declares a Context parameter. -/
structure Generator where
  fname : Name
  usecontext : Bool
  deriving DecidableEq, Repr

/-- The IR heap: all allocated objects, addressed by identity.  `fresh` is
the next unused identifier (one counter is shared by all object kinds). -/
structure Heap where
  mods : List (ModId × Module)
  sigs : List (SigId × Signal)
  intfs : List (IntfId × IntfInst)
  insts : List (InstId × Instanc)
  calls : List (CallId × GenCallRec)
  fresh : Nat

/-- Elaboration errors.  `Shorting` carries the `(instance name, port name)`
pairs listed in the Python error message; `outOfFuel` models exhausting the
host recursion limit. -/
inductive Err where
  | typeError (msg : String)
  | runtimeError (msg : String)
  | shorting (pairs : List (Name × Name))
  | outOfFuel
  deriving DecidableEq, Repr

/-! ### Heap operations -/

def Heap.updMod (h : Heap) (m : ModId) (f : Module → Module) : Heap :=
  { h with mods := match alookup m h.mods with
      | some r => aupd m (f r) h.mods
      | none => h.mods }

def Heap.updSig (h : Heap) (s : SigId) (f : Signal → Signal) : Heap :=
  { h with sigs := match alookup s h.sigs with
      | some r => aupd s (f r) h.sigs
      | none => h.sigs }

def Heap.updIntf (h : Heap) (i : IntfId) (f : IntfInst → IntfInst) : Heap :=
  { h with intfs := match alookup i h.intfs with
      | some r => aupd i (f r) h.intfs
      | none => h.intfs }

def Heap.updInst (h : Heap) (i : InstId) (f : Instanc → Instanc) : Heap :=
  { h with insts := match alookup i h.insts with
      | some r => aupd i (f r) h.insts
      | none => h.insts }

def Heap.updCall (h : Heap) (c : CallId) (f : GenCallRec → GenCallRec) : Heap :=
  { h with calls := match alookup c h.calls with
      | some r => aupd c (f r) h.calls
      | none => h.calls }

def Heap.allocSig (h : Heap) (r : Signal) : Heap × SigId :=
  ({ h with sigs := h.sigs ++ [(h.fresh, r)], fresh := h.fresh + 1 }, h.fresh)

def Heap.allocIntf (h : Heap) (r : IntfInst) : Heap × IntfId :=
  ({ h with intfs := h.intfs ++ [(h.fresh, r)], fresh := h.fresh + 1 }, h.fresh)

def Heap.allocMod (h : Heap) (r : Module) : Heap × ModId :=
  ({ h with mods := h.mods ++ [(h.fresh, r)], fresh := h.fresh + 1 }, h.fresh)

/-- `Instance._resolved`, computed from the target and the generator-call
results: a Module target resolves to itself, a GeneratorCall to its cached
`result` (or unresolved), primitives and externals to themselves. -/
inductive Resolved where
  | module (m : ModId)
  | prim
  | ext
  deriving DecidableEq, Repr

def Heap.resolvedOf (h : Heap) (inst : Instanc) : Option Resolved :=
  match inst.of with
  | .module m => some (.module m)
  | .gencall c =>
    match alookup c h.calls with
    | some r => r.result.map .module
    | none => none
  | .prim => some .prim
  | .ext => some .ext

/-- Modelled from the spec: `Module.get` (module.py is not in src/): look a
name up in the module namespace. -/
def Module.get (m : Module) (nm : Name) : Option NsObj :=
  alookup nm m.ns

/-- Modelled from the spec: `Module.add` for a `Signal`
(module.py is not in src/): a PORT-visibility signal goes to the ports map,
any other to the signals map; the name is recorded in the namespace. -/
def Module.addSig (m : Module) (nm : Name) (sid : SigId) (vis : Visibility) : Module :=
  match vis with
  | .PORT => { m with ports := m.ports ++ [(nm, sid)], ns := m.ns ++ [(nm, .sig sid)] }
  | .INTERNAL => { m with signals := m.signals ++ [(nm, sid)], ns := m.ns ++ [(nm, .sig sid)] }

/-- Modelled from the spec: `Module.add` for an `InterfaceInstance`
(module.py is not in src/): added to the interfaces map and the namespace. -/
def Module.addIntf (m : Module) (nm : Name) (iid : IntfId) : Module :=
  { m with interfaces := m.interfaces ++ [(nm, iid)], ns := m.ns ++ [(nm, .intf iid)] }

/-- Modelled from the spec: `Module._interface_ports`
(module.py is not in src/): the interface instances with the port flag set. -/
def Heap.interfacePorts (h : Heap) (m : Module) : List (Name × IntfId) :=
  m.interfaces.filter (fun p => match alookup p.2 h.intfs with
    | some r => r.port
    | none => false)

/-! ## `_Elaborator.flatname` (elab.py lines 100-117) -/

/-- The collision loop of `flatname`: reject a candidate longer than
`maxlen`, accept one that avoids all keys in `avoid`, otherwise wrap in one
more leading and one more trailing underscore and retry.  The loop runs on
structural fuel so that it evaluates inside the kernel; each retry grows the
candidate by two characters, so fuel `maxlen + 1` can never run out before
the length check fires, and the fuel-exhausted case returns the very same
length error (see `flatnameGo_congr`). -/
def flatnameGo (avoid : List Name) (maxlen : Nat) : Nat → String → Except Err String
  | 0, name =>
    .error (.runtimeError ("Could not generate a flattened name (trying " ++ name ++ ")"))
  | fuel + 1, name =>
    if name.length > maxlen then
      .error (.runtimeError ("Could not generate a flattened name (trying " ++ name ++ ")"))
    else if name ∈ avoid then
      flatnameGo avoid maxlen fuel ("_" ++ name ++ "_")
    else
      .ok name

/-- With adequate fuel (`2 * fuel + name.length ≥ maxlen + 2`) the result of
the collision loop does not depend on the fuel: the loop is a faithful
rendering of the unbounded Python `while True`. -/
theorem flatnameGo_congr (avoid : List Name) (maxlen : Nat) :
    ∀ (f1 f2 : Nat) (name : String), 2 * f1 + name.length ≥ maxlen + 2 →
      2 * f2 + name.length ≥ maxlen + 2 →
      flatnameGo avoid maxlen f1 name = flatnameGo avoid maxlen f2 name := by
  intro f1
  induction f1 with
  | zero =>
    intro f2 name h1 h2
    have hlen : name.length > maxlen := by omega
    cases f2 with
    | zero => rfl
    | succ g => simp [flatnameGo, hlen]
  | succ f ih =>
    intro f2 name h1 h2
    cases f2 with
    | zero =>
      have hlen : name.length > maxlen := by omega
      simp [flatnameGo, hlen]
    | succ g =>
      by_cases hlen : name.length > maxlen
      · simp [flatnameGo, hlen]
      · by_cases hav : name ∈ avoid
        · have hul : "_".length = 1 := rfl
          have hl2 : ("_" ++ name ++ "_").length = name.length + 2 := by
            simp only [String.length_append]
            omega
          simp only [flatnameGo, if_neg hlen, if_pos hav]
          exact ih g ("_" ++ name ++ "_") (by omega) (by omega)
        · simp [flatnameGo, hlen, hav]

/-- `_Elaborator.flatname`: merge `segments` into `"_seg0_seg1_"`, avoiding
the keys of `avoid`, failing past `maxlen` characters. -/
def flatname (segments : List String) (avoid : List Name) (maxlen : Nat := 511) :
    Except Err String :=
  flatnameGo avoid maxlen (maxlen + 1) ("_" ++ String.intercalate "_" segments ++ "_")

/-- `k` extra leading and trailing underscore pairs around a candidate. -/
def wrapN : Nat → String → String
  | 0, s => s
  | k + 1, s => "_" ++ wrapN k s ++ "_"

theorem wrapN_succ (k : Nat) (s : String) : wrapN (k + 1) s = "_" ++ wrapN k s ++ "_" := rfl

theorem length_wrapN (k : Nat) (s : String) : (wrapN k s).length = s.length + 2 * k := by
  induction k with
  | zero => simp [wrapN]
  | succ n ih =>
    have h1 : "_".length = 1 := rfl
    simp only [wrapN, String.length_append, ih]
    omega

/-- Characterization of the `flatname` collision loop under adequate fuel:
it returns `wrapN k name` for the least `k` escaping `avoid`, every earlier
candidate colliding and fitting in `maxlen`; it errors exactly when some
candidate, all earlier ones colliding, exceeds `maxlen`. -/
theorem flatnameGo_spec (avoid : List Name) (maxlen : Nat) :
    ∀ (fuel : Nat) (name : String), 2 * fuel + name.length ≥ maxlen + 2 →
    (∀ n, flatnameGo avoid maxlen fuel name = .ok n →
      ∃ k, n = wrapN k name ∧ n.length ≤ maxlen ∧ n ∉ avoid ∧
        ∀ j < k, wrapN j name ∈ avoid ∧ (wrapN j name).length ≤ maxlen) ∧
    (∀ e, flatnameGo avoid maxlen fuel name = .error e →
      ∃ k, (wrapN k name).length > maxlen ∧
        ∀ j < k, wrapN j name ∈ avoid ∧ (wrapN j name).length ≤ maxlen) := by
  intro fuel
  induction fuel with
  | zero =>
    intro name had
    have hlen : name.length > maxlen := by omega
    constructor
    · intro n hn
      exact absurd hn (by simp [flatnameGo])
    · intro e _
      exact ⟨0, by simpa [wrapN] using hlen, fun j hj => absurd hj (by omega)⟩
  | succ fuel ih =>
    intro name had
    by_cases hlen : name.length > maxlen
    · constructor
      · intro n hn
        rw [flatnameGo, if_pos hlen] at hn
        exact absurd hn (by simp)
      · intro e _
        exact ⟨0, by simpa [wrapN] using hlen, fun j hj => absurd hj (by omega)⟩
    · by_cases hav : name ∈ avoid
      · have hrec : flatnameGo avoid maxlen (fuel + 1) name =
            flatnameGo avoid maxlen fuel ("_" ++ name ++ "_") := by
          rw [flatnameGo, if_neg hlen, if_pos hav]
        have h1 : "_".length = 1 := rfl
        have hlen2 : ("_" ++ name ++ "_").length = name.length + 2 := by
          simp only [String.length_append]
          omega
        have ih' := ih ("_" ++ name ++ "_") (by omega)
        have hshift : ∀ k, wrapN k ("_" ++ name ++ "_") = wrapN (k + 1) name := by
          intro k
          induction k with
          | zero => simp [wrapN]
          | succ j ihj => simp only [wrapN, ihj]
        constructor
        · intro n hn
          rw [hrec] at hn
          obtain ⟨k, hk1, hk2, hk3, hk4⟩ := ih'.1 n hn
          refine ⟨k + 1, by rwa [← hshift], hk2, hk3, ?_⟩
          intro j hj
          match j with
          | 0 => exact ⟨by simpa [wrapN] using hav, by simpa [wrapN] using hlen⟩
          | j' + 1 =>
            have := hk4 j' (by omega)
            rwa [hshift] at this
        · intro e he
          rw [hrec] at he
          obtain ⟨k, hk1, hk2⟩ := ih'.2 e he
          refine ⟨k + 1, by rwa [← hshift], ?_⟩
          intro j hj
          match j with
          | 0 => exact ⟨by simpa [wrapN] using hav, by simpa [wrapN] using hlen⟩
          | j' + 1 =>
            have := hk2 j' (by omega)
            rwa [hshift] at this
      · constructor
        · intro n hn
          rw [flatnameGo, if_neg hlen, if_neg hav] at hn
          refine ⟨0, by simpa [wrapN] using hn.symm, ?_, ?_, fun j hj => absurd hj (by omega)⟩
          · cases hn
            simpa [wrapN] using Nat.le_of_not_lt hlen
          · cases hn
            simpa [wrapN] using hav
        · intro e he
          rw [flatnameGo, if_neg hlen, if_neg hav] at he
          exact absurd he (by simp)

/-! ## Connected-component computation over PortRef adjacency
(`SetList`, elab.py lines 520-538, and the net-assignment loops at
lines 256-269 and 461-474). -/

/-- `SetList.add`: append while keeping membership unique. -/
def setListAdd (l : List PortRef) (x : PortRef) : List PortRef :=
  if x ∈ l then l else l ++ [x]

/-- The inner chain-following loop: `while outer in portconns:
outer = portconns.pop(outer); this_net.add(outer)`.  Runs on structural
fuel so that it evaluates inside the kernel; each iteration removes one
entry, so fuel `portconns.length` is always adequate, and at fuel zero the
dict is necessarily empty, making the fuel-exhausted result agree with the
loop exit. -/
def chaseGo : Nat → List (PortRef × PortRef) → List PortRef → PortRef →
    List (PortRef × PortRef) × List PortRef
  | 0, pc, net, _ => (pc, net)
  | fuel + 1, pc, net, outer =>
    match alookup outer pc with
    | none => (pc, net)
    | some nxt => chaseGo fuel (aerase outer pc) (setListAdd net nxt) nxt

theorem chaseGo_fst_length_le :
    ∀ (fuel : Nat) (pc : List (PortRef × PortRef)) (net : List PortRef) (o : PortRef),
      (chaseGo fuel pc net o).1.length ≤ pc.length := by
  intro fuel
  induction fuel with
  | zero => intro pc net o; simp [chaseGo]
  | succ f ih =>
    intro pc net o
    rw [chaseGo]
    cases hl : alookup o pc with
    | none => simp
    | some nxt =>
      have h1 := ih (aerase o pc) (setListAdd net nxt) nxt
      have h2 := length_aerase_of_lookup hl
      simp only []
      omega

/-- The outer net-assignment loop: `while portconns: inner, outer =
portconns.popitem(); ...` — `dict.popitem` pops the most recently inserted
entry.  Fueled like `chaseGo`: every round removes at least the popped
entry, so fuel `portconns.length` suffices and fuel zero implies an empty
dict. -/
def buildNetsGo : Nat → List (PortRef × PortRef) → List (List PortRef)
  | 0, _ => []
  | fuel + 1, pc =>
    match pc.getLast? with
    | none => []
    | some pr =>
      let res := chaseGo pc.dropLast.length pc.dropLast
        (setListAdd (setListAdd [] pr.1) pr.2) pr.2
      res.2 :: buildNetsGo fuel res.1

def buildNets (portconns : List (PortRef × PortRef)) : List (List PortRef) :=
  buildNetsGo portconns.length portconns

/-! ## Shared per-net helpers (lines 272-310 and 477-515) -/

/-- `p.inst.name`: the name attribute of a PortRef's owner. -/
def Heap.ownerName (h : Heap) (o : Owner) : Except Err Name :=
  match o with
  | .inst i =>
    match alookup i h.insts with
    | some inst => .ok inst.name
    | none => .error (.runtimeError "missing Instance")
  | .intf i =>
    match alookup i h.intfs with
    | some r => .ok r.name
    | none => .error (.runtimeError "missing InterfaceInstance")

/-- The `(p.inst.name, p.portname)` pairs listed in a shorting error. -/
def Heap.pairsOf (h : Heap) (net : List PortRef) : Except Err (List (Name × Name)) :=
  net.mapM (fun p => (h.ownerName p.owner).map (fun nm => (nm, p.portname)))

/-- `portref.inst.conns.get(portref.portname, None)`.  An
InterfaceInstance owner has no connection map: fatal attribute error. -/
def Heap.connOf (h : Heap) (p : PortRef) : Except Err (Option Conn) :=
  match p.owner with
  | .inst i =>
    match alookup i h.insts with
    | some inst => .ok (alookup p.portname inst.conns)
    | none => .error (.runtimeError "missing Instance")
  | .intf _ => .error (.runtimeError "InterfaceInstance has no connection map")

/-- The declared-Signal scan of `ImplicitSignals.elaborate_module`
(lines 275-284): walk the net keeping the one connected Signal seen so far,
raising a shorting error on two non-identical Signals. -/
def findNetSigLoop (h : Heap) (net : List PortRef) (sig : Option SigId) :
    List PortRef → Except Err (Option SigId)
  | [] => .ok sig
  | p :: rest =>
    match h.connOf p with
    | .error e => .error e
    | .ok conn =>
      match conn with
      | some (.sig s) =>
        match sig with
        | some s0 =>
          if s ≠ s0 then
            match h.pairsOf net with
            | .ok ps => .error (.shorting ps)
            | .error e => .error e
          else
            findNetSigLoop h net (some s) rest
        | none => findNetSigLoop h net (some s) rest
      | _ => findNetSigLoop h net sig rest

def findNetSig (h : Heap) (net : List PortRef) : Except Err (Option SigId) :=
  findNetSigLoop h net none net

/-- The re-connection loop: `for portref in net:
portref.inst.conns[portref.portname] = sig` (lines 309-310, 514-515). -/
def rewireNet (c : Conn) : List PortRef → Heap → Except Err Heap
  | [], h => .ok h
  | p :: rest, h =>
    match p.owner with
    | .inst i =>
      rewireNet c rest
        (h.updInst i (fun inst => { inst with conns := aupd p.portname c inst.conns }))
    | .intf _ => .error (.runtimeError "InterfaceInstance has no connection map")

/-- The segment list `[f"{p.inst.name}_{p.portname}" for p in net]`. -/
def Heap.netSegments (h : Heap) (net : List PortRef) : Except Err (List String) :=
  net.mapM (fun p => (h.ownerName p.owner).map (fun nm => nm ++ "_" ++ p.portname))

/-- Per-net processing of `ImplicitSignals.elaborate_module`
(elab.py lines 272-310): reuse the single declared Signal if one exists,
otherwise create one cloned from the last-seen member's port definition,
with INTERNAL visibility, NONE direction and a `flatname`-generated name;
then rewire every member to it. -/
def processNetIS (mid : ModId) (net : List PortRef) (h : Heap) : Except Err Heap :=
  match findNetSig h net with
  | .error e => .error e
  | .ok (some sid) => rewireNet (.sig sid) net h
  | .ok none =>
    match alookup mid h.mods with
    | none => .error (.runtimeError "missing Module")
    | some m =>
      match h.netSegments net with
      | .error e => .error e
      | .ok segments =>
        match flatname segments (akeys m.ns) with
        | .error e => .error e
        | .ok signame =>
          match net.getLast? with
          | none => .error (.runtimeError "empty net")
          | some lastref =>
            match lastref.owner with
            | .intf _ => .error (.runtimeError "InterfaceInstance has no resolved module")
            | .inst iid =>
              match alookup iid h.insts with
              | none => .error (.runtimeError "missing Instance")
              | some inst =>
                match h.resolvedOf inst with
                | some (.module lm) =>
                  match alookup lm h.mods with
                  | none => .error (.runtimeError "missing Module")
                  | some lastmod =>
                    match alookup lastref.portname lastmod.ports with
                    | some psid =>
                      match alookup psid h.sigs with
                      | none => .error (.runtimeError "missing Signal")
                      | some ps =>
                        let al := h.allocSig
                          { ps with vis := .INTERNAL, direction := .NONE, name := signame }
                        let h2 := al.1.updMod mid
                          (fun mm => mm.addSig signame al.2 .INTERNAL)
                        rewireNet (.sig al.2) net h2
                    | none =>
                      .error (.runtimeError ("Invalid port " ++ lastref.portname))
                | _ => .error (.runtimeError "unresolved Instance target")

/-- The declared-InterfaceInstance scan of
`ImplicitInterfaces.elaborate_module` (lines 480-489). -/
def findNetIntfLoop (h : Heap) (net : List PortRef) (sig : Option IntfId) :
    List PortRef → Except Err (Option IntfId)
  | [] => .ok sig
  | p :: rest =>
    match h.connOf p with
    | .error e => .error e
    | .ok conn =>
      match conn with
      | some (.intf s) =>
        match sig with
        | some s0 =>
          if s ≠ s0 then
            match h.pairsOf net with
            | .ok ps => .error (.shorting ps)
            | .error e => .error e
          else
            findNetIntfLoop h net (some s) rest
        | none => findNetIntfLoop h net (some s) rest
      | _ => findNetIntfLoop h net sig rest

def findNetIntf (h : Heap) (net : List PortRef) : Except Err (Option IntfId) :=
  findNetIntfLoop h net none net

/-- Per-net processing of `ImplicitInterfaces.elaborate_module`
(elab.py lines 477-515): like `processNetIS` but for interface-valued
connections, cloning from the last member's `_interface_ports` entry and
clearing the clone's `port` and `role` attributes. -/
def processNetII (mid : ModId) (net : List PortRef) (h : Heap) : Except Err Heap :=
  match findNetIntf h net with
  | .error e => .error e
  | .ok (some fid) => rewireNet (.intf fid) net h
  | .ok none =>
    match alookup mid h.mods with
    | none => .error (.runtimeError "missing Module")
    | some m =>
      match h.netSegments net with
      | .error e => .error e
      | .ok segments =>
        match flatname segments (akeys m.ns) with
        | .error e => .error e
        | .ok signame =>
          match net.getLast? with
          | none => .error (.runtimeError "empty net")
          | some lastref =>
            match lastref.owner with
            | .intf _ => .error (.runtimeError "InterfaceInstance has no resolved module")
            | .inst iid =>
              match alookup iid h.insts with
              | none => .error (.runtimeError "missing Instance")
              | some inst =>
                match h.resolvedOf inst with
                | some (.module lm) =>
                  match alookup lm h.mods with
                  | none => .error (.runtimeError "missing Module")
                  | some lastmod =>
                    match alookup lastref.portname (h.interfacePorts lastmod) with
                    | some pfid =>
                      match alookup pfid h.intfs with
                      | none => .error (.runtimeError "missing InterfaceInstance")
                      | some pi =>
                        let al := h.allocIntf
                          { pi with port := false, role := none, name := signame }
                        let h2 := al.1.updMod mid (fun mm => mm.addIntf signame al.2)
                        rewireNet (.intf al.2) net h2
                    | none =>
                      .error (.runtimeError ("Invalid port " ++ lastref.portname))
                | _ => .error (.runtimeError "unresolved Instance target")

/-! ## The `ImplicitSignals` pass (elab.py lines 225-312) -/

/-- State threaded through the non-generator passes that keep no per-module
cache: the heap, plus a ghost `log` recording each `elaborate_module` body
that actually runs (used to reason about repeated processing). -/
structure SimpleSt where
  heap : Heap
  log : List ModId

/-- The PortRef adjacency dict of `ImplicitSignals` (lines 248-253): every
instance connection that is a PortRef, keyed by the referring
`(instance, port)`. -/
def buildPortconnsIS (h : Heap) (instances : List (Name × InstId)) :
    List (PortRef × PortRef) :=
  instances.foldl (fun acc p =>
    match alookup p.2 h.insts with
    | none => acc
    | some inst =>
      inst.conns.foldl (fun acc2 pc =>
        match pc.2 with
        | .portref r => acc2 ++ [(⟨.inst p.2, pc.1⟩, r)]
        | _ => acc2) acc) []

/-- Sequential processing of the discovered nets (the `for net in nets`
loop, line 272). -/
def processNetsIS (mid : ModId) : List (List PortRef) → Heap → Except Err Heap
  | [], h => .ok h
  | net :: rest, h =>
    match processNetIS mid net h with
    | .error e => .error e
    | .ok h' => processNetsIS mid rest h'

/-- Traversal tasks of a pass: a module body, the instance loop, or a
single instance. -/
inductive PassTask where
  | module (mid : ModId)
  | insts (l : List (Name × InstId))
  | inst (iid : InstId)

/-- The `ImplicitSignals` pass (elab.py lines 225-312), as a fueled
dispatcher over traversal tasks.  Note this pass keeps no per-module
memoization: every `elaborate_module` call runs the full body.  Running out
of fuel models the Python recursion limit. -/
def isStep : Nat → PassTask → SimpleSt → Except Err (Option ModId × SimpleSt)
  | 0, _, _ => .error .outOfFuel
  | fuel + 1, .module mid, s =>
    match alookup mid s.heap.mods with
    | none => .error (.runtimeError "missing Module")
    | some m =>
      if m.interfaces ≠ [] then
        .error (.runtimeError "ImplicitSignals elaborator invalidly invoked on Module with Interfaces")
      else
        let s0 := { s with log := s.log ++ [mid] }
        match isStep fuel (.insts m.instances) s0 with
        | .error e => .error e
        | .ok (_, s1) =>
          match alookup mid s1.heap.mods with
          | none => .error (.runtimeError "missing Module")
          | some m1 =>
            let portconns := buildPortconnsIS s1.heap m1.instances
            let nets := buildNets portconns
            match processNetsIS mid nets s1.heap with
            | .error e => .error e
            | .ok h2 => .ok (some mid, { s1 with heap := h2 })
  | _ + 1, .insts [], s => .ok (none, s)
  | fuel + 1, .insts (p :: rest), s =>
    match isStep fuel (.inst p.2) s with
    | .error e => .error e
    | .ok (_, s1) => isStep fuel (.insts rest) s1
  | fuel + 1, .inst iid, s =>
    let s0 : SimpleSt :=
      { s with heap := s.heap.updInst iid (fun i => { i with elaborated := true }) }
    match alookup iid s0.heap.insts with
    | none => .error (.runtimeError "missing Instance")
    | some inst =>
      match s0.heap.resolvedOf inst with
      | none => .error (.runtimeError "Error elaborating undefined Instance")
      | some (.module m') => isStep fuel (.module m') s0
      | some .prim => .ok (none, s0)
      | some .ext => .ok (none, s0)

/-! ## Basic lemmas about the heap operations -/

@[simp] theorem updInst_mods (h : Heap) (i : InstId) (f : Instanc → Instanc) :
    (h.updInst i f).mods = h.mods := by
  unfold Heap.updInst
  split <;> rfl

@[simp] theorem updInst_sigs (h : Heap) (i : InstId) (f : Instanc → Instanc) :
    (h.updInst i f).sigs = h.sigs := by
  unfold Heap.updInst
  split <;> rfl

@[simp] theorem updInst_intfs (h : Heap) (i : InstId) (f : Instanc → Instanc) :
    (h.updInst i f).intfs = h.intfs := by
  unfold Heap.updInst
  split <;> rfl

@[simp] theorem updInst_calls (h : Heap) (i : InstId) (f : Instanc → Instanc) :
    (h.updInst i f).calls = h.calls := by
  unfold Heap.updInst
  split <;> rfl

@[simp] theorem updInst_fresh (h : Heap) (i : InstId) (f : Instanc → Instanc) :
    (h.updInst i f).fresh = h.fresh := by
  unfold Heap.updInst
  split <;> rfl

theorem alookup_updInst_self (h : Heap) (i : InstId) (f : Instanc → Instanc) :
    alookup i (h.updInst i f).insts = (alookup i h.insts).map f := by
  unfold Heap.updInst
  cases hl : alookup i h.insts with
  | none => simp [hl]
  | some r => simp [hl, alookup_aupd_self]

theorem alookup_updInst_other (h : Heap) {i j : InstId} (hne : i ≠ j) (f : Instanc → Instanc) :
    alookup i (h.updInst j f).insts = alookup i h.insts := by
  unfold Heap.updInst
  cases hl : alookup j h.insts with
  | none => simp [hl]
  | some r => simp [hl, alookup_aupd_ne hne]

theorem isSome_updInst (h : Heap) (i j : InstId) (f : Instanc → Instanc) :
    (alookup i (h.updInst j f).insts).isSome = (alookup i h.insts).isSome := by
  by_cases hij : i = j
  · subst hij
    rw [alookup_updInst_self]
    cases alookup i h.insts <;> rfl
  · rw [alookup_updInst_other h hij]

@[simp] theorem updMod_insts (h : Heap) (m : ModId) (f : Module → Module) :
    (h.updMod m f).insts = h.insts := by
  unfold Heap.updMod
  split <;> rfl

@[simp] theorem updMod_sigs (h : Heap) (m : ModId) (f : Module → Module) :
    (h.updMod m f).sigs = h.sigs := by
  unfold Heap.updMod
  split <;> rfl

@[simp] theorem updMod_intfs (h : Heap) (m : ModId) (f : Module → Module) :
    (h.updMod m f).intfs = h.intfs := by
  unfold Heap.updMod
  split <;> rfl

@[simp] theorem updMod_calls (h : Heap) (m : ModId) (f : Module → Module) :
    (h.updMod m f).calls = h.calls := by
  unfold Heap.updMod
  split <;> rfl

@[simp] theorem updMod_fresh (h : Heap) (m : ModId) (f : Module → Module) :
    (h.updMod m f).fresh = h.fresh := by
  unfold Heap.updMod
  split <;> rfl

theorem alookup_updMod_self (h : Heap) (m : ModId) (f : Module → Module) :
    alookup m (h.updMod m f).mods = (alookup m h.mods).map f := by
  unfold Heap.updMod
  cases hl : alookup m h.mods with
  | none => simp [hl]
  | some r => simp [hl, alookup_aupd_self]

theorem alookup_updMod_other (h : Heap) {m j : ModId} (hne : m ≠ j) (f : Module → Module) :
    alookup m (h.updMod j f).mods = alookup m h.mods := by
  unfold Heap.updMod
  cases hl : alookup j h.mods with
  | none => simp [hl]
  | some r => simp [hl, alookup_aupd_ne hne]

@[simp] theorem allocSig_mods (h : Heap) (r : Signal) : (h.allocSig r).1.mods = h.mods := rfl

@[simp] theorem allocSig_insts (h : Heap) (r : Signal) : (h.allocSig r).1.insts = h.insts := rfl

@[simp] theorem allocSig_intfs (h : Heap) (r : Signal) : (h.allocSig r).1.intfs = h.intfs := rfl

@[simp] theorem allocSig_calls (h : Heap) (r : Signal) : (h.allocSig r).1.calls = h.calls := rfl

@[simp] theorem allocSig_sigs (h : Heap) (r : Signal) :
    (h.allocSig r).1.sigs = h.sigs ++ [(h.fresh, r)] := rfl

@[simp] theorem allocIntf_mods (h : Heap) (r : IntfInst) : (h.allocIntf r).1.mods = h.mods := rfl

@[simp] theorem allocIntf_insts (h : Heap) (r : IntfInst) : (h.allocIntf r).1.insts = h.insts := rfl

@[simp] theorem allocIntf_sigs (h : Heap) (r : IntfInst) : (h.allocIntf r).1.sigs = h.sigs := rfl

@[simp] theorem allocIntf_calls (h : Heap) (r : IntfInst) : (h.allocIntf r).1.calls = h.calls := rfl

/-! ## Correctness of the re-connection loop -/

/-- The connection value at instance `i`, port `pn`. -/
def Heap.connAt (h : Heap) (i : InstId) (pn : Name) : Option Conn :=
  (alookup i h.insts).bind (fun inst => alookup pn inst.conns)

theorem rewireNet_ok (c : Conn) :
    ∀ (net : List PortRef) (h : Heap),
      (∀ p ∈ net, ∃ i, p.owner = .inst i ∧ (alookup i h.insts).isSome) →
      ∃ h', rewireNet c net h = .ok h' ∧
        h'.mods = h.mods ∧ h'.sigs = h.sigs ∧ h'.intfs = h.intfs ∧
        h'.calls = h.calls ∧ h'.fresh = h.fresh ∧
        (∀ i, (alookup i h'.insts).isSome = (alookup i h.insts).isSome) ∧
        (∀ i pn, h.connAt i pn = some c → h'.connAt i pn = some c) ∧
        (∀ p ∈ net, ∀ i, p.owner = .inst i → h'.connAt i p.portname = some c) := by
  intro net
  induction net with
  | nil =>
    intro h _
    exact ⟨h, rfl, rfl, rfl, rfl, rfl, rfl, fun _ => rfl, fun _ _ hc => hc, by simp⟩
  | cons p rest ih =>
    intro h hown
    obtain ⟨i, hio, hsome⟩ := hown p (by simp)
    have h1def : ∃ inst, alookup i h.insts = some inst := by
      cases hl : alookup i h.insts with
      | none => rw [hl] at hsome; cases hsome
      | some v => exact ⟨v, rfl⟩
    obtain ⟨inst, hinst⟩ := h1def
    set h1 := h.updInst i (fun ins => { ins with conns := aupd p.portname c ins.conns }) with hh1
    have hstep : rewireNet c (p :: rest) h = rewireNet c rest h1 := by
      rw [rewireNet, hio]
    have hown' : ∀ q ∈ rest, ∃ j, q.owner = .inst j ∧ (alookup j h1.insts).isSome := by
      intro q hq
      obtain ⟨j, hj1, hj2⟩ := hown q (by simp [hq])
      exact ⟨j, hj1, by rw [isSome_updInst]; exact hj2⟩
    obtain ⟨h', hrw, hmods, hsigs, hintfs, hcalls, hfresh, hdom, hpres, hconns⟩ := ih h1 hown'
    have hconn1 : ∀ j pn, h.connAt j pn = some c → h1.connAt j pn = some c := by
      intro j pn hc
      unfold Heap.connAt at hc ⊢
      by_cases hji : j = i
      · subst hji
        rw [alookup_updInst_self, hinst]
        rw [hinst] at hc
        have hc' : alookup pn inst.conns = some c := hc
        show alookup pn (aupd p.portname c inst.conns) = some c
        by_cases hpn : pn = p.portname
        · subst hpn
          exact alookup_aupd_self _ _ _
        · rw [alookup_aupd_ne hpn]
          exact hc'
      · rw [alookup_updInst_other h hji]
        exact hc
    have hconnp : h1.connAt i p.portname = some c := by
      unfold Heap.connAt
      rw [alookup_updInst_self, hinst]
      show alookup p.portname (aupd p.portname c inst.conns) = some c
      exact alookup_aupd_self _ _ _
    refine ⟨h', by rw [hstep]; exact hrw, by simp [hmods, hh1], by simp [hsigs, hh1],
      by simp [hintfs, hh1], by simp [hcalls, hh1], by simp [hfresh, hh1],
      fun j => by rw [hdom, isSome_updInst], fun j pn hc => hpres _ _ (hconn1 _ _ hc), ?_⟩
    intro q hq j hqo
    rcases List.mem_cons.mp hq with hq | hq
    · subst hq
      rw [hio] at hqo
      cases hqo
      exact hpres _ _ hconnp
    · exact hconns q hq j hqo

/-! ## The shorting check -/

/-- Total view of a member's connection (`none` when unreadable). -/
def Heap.connOfD (h : Heap) (p : PortRef) : Option Conn :=
  match h.connOf p with
  | .ok c => c
  | .error _ => none

/-- The declared Signals attached to a net, in member order. -/
def sigConns (h : Heap) (l : List PortRef) : List SigId :=
  l.filterMap (fun p => match h.connOfD p with
    | some (.sig s) => some s
    | _ => none)

/-- The declared InterfaceInstances attached to a net, in member order. -/
def intfConns (h : Heap) (l : List PortRef) : List IntfId :=
  l.filterMap (fun p => match h.connOfD p with
    | some (.intf s) => some s
    | _ => none)

theorem sigConns_nil (h : Heap) : sigConns h [] = [] := rfl

theorem sigConns_cons_sig (h : Heap) {p : PortRef} {s : SigId} (rest : List PortRef)
    (hc : h.connOfD p = some (.sig s)) : sigConns h (p :: rest) = s :: sigConns h rest := by
  simp [sigConns, List.filterMap_cons, hc]

theorem intfConns_cons_intf (h : Heap) {p : PortRef} {s : IntfId} (rest : List PortRef)
    (hc : h.connOfD p = some (.intf s)) : intfConns h (p :: rest) = s :: intfConns h rest := by
  simp [intfConns, List.filterMap_cons, hc]

/-- Two non-identical values appear in a list. -/
def TwoDistinct (l : List Nat) : Prop := ∃ a ∈ l, ∃ b ∈ l, a ≠ b

theorem twoDistinct_dedup_head {s : Nat} {t : List Nat} (hp : TwoDistinct (s :: s :: t)) :
    TwoDistinct (s :: t) := by
  obtain ⟨a, ha, b, hb, hab⟩ := hp
  refine ⟨a, ?_, b, ?_, hab⟩
  · rcases List.mem_cons.mp ha with h | h
    · exact List.mem_cons.mpr (Or.inl h)
    · exact h
  · rcases List.mem_cons.mp hb with h | h
    · exact List.mem_cons.mpr (Or.inl h)
    · exact h

/-- Whenever a net carries two non-identical declared Signals, the scan of
`ImplicitSignals.elaborate_module` raises the shorting error listing the
net's `(instance name, port name)` pairs. -/
theorem findNetSigLoop_shorting (h : Heap) (net : List PortRef) (ps : List (Name × Name))
    (hps : h.pairsOf net = .ok ps) :
    ∀ (rest : List PortRef) (sig0 : Option SigId),
      (∀ p ∈ rest, ∃ i inst, p.owner = .inst i ∧ alookup i h.insts = some inst) →
      TwoDistinct (sig0.toList ++ sigConns h rest) →
      findNetSigLoop h net sig0 rest = .error (.shorting ps) := by
  intro rest
  induction rest with
  | nil =>
    intro sig0 _ hpair
    exfalso
    obtain ⟨a, ha, b, hb, hab⟩ := hpair
    cases sig0 with
    | none => simp [sigConns] at ha
    | some s0 =>
      simp [sigConns] at ha hb
      subst ha
      subst hb
      exact hab rfl
  | cons p rest ih =>
    intro sig0 hown hpair
    obtain ⟨i, inst, hio, hinst⟩ := hown p (by simp)
    have hconn : h.connOf p = .ok (alookup p.portname inst.conns) := by
      simp [Heap.connOf, hio, hinst]
    have hconnD : h.connOfD p = alookup p.portname inst.conns := by
      simp [Heap.connOfD, hconn]
    have hown' : ∀ q ∈ rest, ∃ j inst', q.owner = .inst j ∧ alookup j h.insts = some inst' :=
      fun q hq => hown q (by simp [hq])
    rw [findNetSigLoop, hconn]
    cases hc : alookup p.portname inst.conns with
    | none =>
      have hsc : sigConns h (p :: rest) = sigConns h rest := by
        simp [sigConns, List.filterMap_cons, hconnD, hc]
      rw [hsc] at hpair
      exact ih sig0 hown' hpair
    | some conn =>
      cases conn with
      | sig s =>
        have hsc := sigConns_cons_sig h rest (by rw [hconnD, hc])
        rw [hsc] at hpair
        cases sig0 with
        | none =>
          exact ih (some s) hown' hpair
        | some s0 =>
          by_cases hss : s = s0
          · subst hss
            simp only [ne_eq, not_true_eq_false, if_neg, ite_false]
            have hpair' : TwoDistinct ((some s).toList ++ sigConns h rest) := by
              simpa using twoDistinct_dedup_head (by simpa using hpair)
            exact ih (some s) hown' hpair'
          · simp only [ne_eq, hss, not_false_eq_true, if_true, ite_true, hps]
      | intf f =>
        have hsc : sigConns h (p :: rest) = sigConns h rest := by
          simp [sigConns, List.filterMap_cons, hconnD, hc]
        rw [hsc] at hpair
        exact ih sig0 hown' hpair
      | portref r =>
        have hsc : sigConns h (p :: rest) = sigConns h rest := by
          simp [sigConns, List.filterMap_cons, hconnD, hc]
        rw [hsc] at hpair
        exact ih sig0 hown' hpair

/-- Bundle-pass version of `findNetSigLoop_shorting`. -/
theorem findNetIntfLoop_shorting (h : Heap) (net : List PortRef) (ps : List (Name × Name))
    (hps : h.pairsOf net = .ok ps) :
    ∀ (rest : List PortRef) (sig0 : Option IntfId),
      (∀ p ∈ rest, ∃ i inst, p.owner = .inst i ∧ alookup i h.insts = some inst) →
      TwoDistinct (sig0.toList ++ intfConns h rest) →
      findNetIntfLoop h net sig0 rest = .error (.shorting ps) := by
  intro rest
  induction rest with
  | nil =>
    intro sig0 _ hpair
    exfalso
    obtain ⟨a, ha, b, hb, hab⟩ := hpair
    cases sig0 with
    | none => simp [intfConns] at ha
    | some s0 =>
      simp [intfConns] at ha hb
      subst ha
      subst hb
      exact hab rfl
  | cons p rest ih =>
    intro sig0 hown hpair
    obtain ⟨i, inst, hio, hinst⟩ := hown p (by simp)
    have hconn : h.connOf p = .ok (alookup p.portname inst.conns) := by
      simp [Heap.connOf, hio, hinst]
    have hconnD : h.connOfD p = alookup p.portname inst.conns := by
      simp [Heap.connOfD, hconn]
    have hown' : ∀ q ∈ rest, ∃ j inst', q.owner = .inst j ∧ alookup j h.insts = some inst' :=
      fun q hq => hown q (by simp [hq])
    rw [findNetIntfLoop, hconn]
    cases hc : alookup p.portname inst.conns with
    | none =>
      have hsc : intfConns h (p :: rest) = intfConns h rest := by
        simp [intfConns, List.filterMap_cons, hconnD, hc]
      rw [hsc] at hpair
      exact ih sig0 hown' hpair
    | some conn =>
      cases conn with
      | intf s =>
        have hsc := intfConns_cons_intf h rest (by rw [hconnD, hc])
        rw [hsc] at hpair
        cases sig0 with
        | none =>
          exact ih (some s) hown' hpair
        | some s0 =>
          by_cases hss : s = s0
          · subst hss
            simp only [ne_eq, not_true_eq_false, if_neg, ite_false]
            have hpair' : TwoDistinct ((some s).toList ++ intfConns h rest) := by
              simpa using twoDistinct_dedup_head (by simpa using hpair)
            exact ih (some s) hown' hpair'
          · simp only [ne_eq, hss, not_false_eq_true, if_true, ite_true, hps]
      | sig f =>
        have hsc : intfConns h (p :: rest) = intfConns h rest := by
          simp [intfConns, List.filterMap_cons, hconnD, hc]
        rw [hsc] at hpair
        exact ih sig0 hown' hpair
      | portref r =>
        have hsc : intfConns h (p :: rest) = intfConns h rest := by
          simp [intfConns, List.filterMap_cons, hconnD, hc]
        rw [hsc] at hpair
        exact ih sig0 hown' hpair

/-! ## Claim C5 -/

/-- C5: for every connected component of PortRef connections that has two
or more distinct (non-identical) declared Signals attached (scalar pass) or
two or more distinct InterfaceInstances attached (bundle pass), elaboration
fails with a shorting error that names the `(instance name, port name)`
pairs of the component's members, and no new net is created for that
component (the per-net processing returns the error and produces no heap). -/
theorem net_shorting_error (h : Heap) (mid : ModId) (net : List PortRef)
    (ps : List (Name × Name))
    (hown : ∀ p ∈ net, ∃ i inst, p.owner = .inst i ∧ alookup i h.insts = some inst)
    (hps : h.pairsOf net = .ok ps) :
    (∀ p q s1 s2, p ∈ net → q ∈ net →
      h.connOfD p = some (.sig s1) → h.connOfD q = some (.sig s2) → s1 ≠ s2 →
      findNetSig h net = .error (.shorting ps) ∧
      processNetIS mid net h = .error (.shorting ps)) ∧
    (∀ p q f1 f2, p ∈ net → q ∈ net →
      h.connOfD p = some (.intf f1) → h.connOfD q = some (.intf f2) → f1 ≠ f2 →
      findNetIntf h net = .error (.shorting ps) ∧
      processNetII mid net h = .error (.shorting ps)) := by
  constructor
  · intro p q s1 s2 hp hq hcp hcq hne
    have hs1 : s1 ∈ sigConns h net := by
      apply List.mem_filterMap.mpr
      exact ⟨p, hp, by rw [hcp]⟩
    have hs2 : s2 ∈ sigConns h net := by
      apply List.mem_filterMap.mpr
      exact ⟨q, hq, by rw [hcq]⟩
    have hfind : findNetSig h net = .error (.shorting ps) := by
      apply findNetSigLoop_shorting h net ps hps net none hown
      exact ⟨s1, by simpa using hs1, s2, by simpa using hs2, hne⟩
    exact ⟨hfind, by rw [processNetIS, hfind]⟩
  · intro p q f1 f2 hp hq hcp hcq hne
    have hs1 : f1 ∈ intfConns h net := by
      apply List.mem_filterMap.mpr
      exact ⟨p, hp, by rw [hcp]⟩
    have hs2 : f2 ∈ intfConns h net := by
      apply List.mem_filterMap.mpr
      exact ⟨q, hq, by rw [hcq]⟩
    have hfind : findNetIntf h net = .error (.shorting ps) := by
      apply findNetIntfLoop_shorting h net ps hps net none hown
      exact ⟨f1, by simpa using hs1, f2, by simpa using hs2, hne⟩
    exact ⟨hfind, by rw [processNetII, hfind]⟩

/-- Concrete data for the C5 witness: two instances, their scalar ports
connected to distinct Signals, their bundle ports to distinct
InterfaceInstances. -/
def intfInstW : IntfInst :=
  { name := "i", of := .mk "I" [] [], port := false, role := none, portrefs := [],
    elaborated := false }

def heapC5 : Heap :=
  { mods := []
    sigs := [(10, { name := "a", vis := .INTERNAL, direction := .NONE, src := none, dest := none }),
             (11, { name := "b", vis := .INTERNAL, direction := .NONE, src := none, dest := none })]
    intfs := [(20, intfInstW), (21, intfInstW)]
    insts := [(0, { name := "x", of := .prim,
                    conns := [("p", .sig 10), ("pi", .intf 20)], elaborated := false }),
              (1, { name := "y", of := .prim,
                    conns := [("q", .sig 11), ("qi", .intf 21)], elaborated := false })]
    calls := []
    fresh := 100 }

def netC5s : List PortRef := [⟨.inst 0, "p"⟩, ⟨.inst 1, "q"⟩]

def netC5i : List PortRef := [⟨.inst 0, "pi"⟩, ⟨.inst 1, "qi"⟩]

theorem net_shorting_error_witness :
    findNetSig heapC5 netC5s = .error (.shorting [("x", "p"), ("y", "q")]) ∧
    processNetIS 7 netC5s heapC5 = .error (.shorting [("x", "p"), ("y", "q")]) ∧
    findNetIntf heapC5 netC5i = .error (.shorting [("x", "pi"), ("y", "qi")]) ∧
    processNetII 7 netC5i heapC5 = .error (.shorting [("x", "pi"), ("y", "qi")]) := by
  have howns : ∀ p ∈ netC5s, ∃ i inst, p.owner = .inst i ∧ alookup i heapC5.insts = some inst := by
    intro p hp
    simp only [netC5s, List.mem_cons, List.not_mem_nil, or_false] at hp
    rcases hp with rfl | rfl
    · exact ⟨0, _, rfl, rfl⟩
    · exact ⟨1, _, rfl, rfl⟩
  have howni : ∀ p ∈ netC5i, ∃ i inst, p.owner = .inst i ∧ alookup i heapC5.insts = some inst := by
    intro p hp
    simp only [netC5i, List.mem_cons, List.not_mem_nil, or_false] at hp
    rcases hp with rfl | rfl
    · exact ⟨0, _, rfl, rfl⟩
    · exact ⟨1, _, rfl, rfl⟩
  have hs := (net_shorting_error heapC5 7 netC5s [("x", "p"), ("y", "q")] howns rfl).1
    ⟨.inst 0, "p"⟩ ⟨.inst 1, "q"⟩ 10 11 (by simp [netC5s]) (by simp [netC5s]) rfl rfl
    (by decide)
  have hi := (net_shorting_error heapC5 7 netC5i [("x", "pi"), ("y", "qi")] howni rfl).2
    ⟨.inst 0, "pi"⟩ ⟨.inst 1, "qi"⟩ 20 21 (by simp [netC5i]) (by simp [netC5i]) rfl rfl
    (by decide)
  exact ⟨hs.1, hs.2, hi.1, hi.2⟩

/-! ## Claim C4 -/

/-- C4: in the implicit-scalar-nets pass, for every connected component of
scalar PortRef connections with no declared Signal attached, the pass adds
exactly one new Signal to the module, cloned from the last-seen member's
port definition, with visibility INTERNAL and direction NONE, named via
`flatname` over the `"instname_portname"` segments of the component against
the module's namespace, and rewires every member's connection to that
Signal. -/
theorem implicit_scalar_net_creation (h : Heap) (mid : ModId) (net : List PortRef)
    (m : Module) (segments : List String) (signame : Name) (lastref : PortRef)
    (iid : InstId) (inst : Instanc) (lm : ModId) (lastmod : Module) (psid : SigId) (ps : Signal)
    (hown : ∀ p ∈ net, ∃ i inst', p.owner = .inst i ∧ alookup i h.insts = some inst')
    (hfind : findNetSig h net = .ok none)
    (hmod : alookup mid h.mods = some m)
    (hseg : h.netSegments net = .ok segments)
    (hname : flatname segments (akeys m.ns) = .ok signame)
    (hlast : net.getLast? = some lastref)
    (hio : lastref.owner = .inst iid)
    (hinst : alookup iid h.insts = some inst)
    (hres : h.resolvedOf inst = some (.module lm))
    (hlm : alookup lm h.mods = some lastmod)
    (hport : alookup lastref.portname lastmod.ports = some psid)
    (hpsig : alookup psid h.sigs = some ps) :
    ∃ h', processNetIS mid net h = .ok h' ∧
      h'.sigs = h.sigs ++
        [(h.fresh, { ps with vis := .INTERNAL, direction := .NONE, name := signame })] ∧
      (∃ m', alookup mid h'.mods = some m' ∧
        m'.signals = m.signals ++ [(signame, h.fresh)] ∧
        m'.ns = m.ns ++ [(signame, .sig h.fresh)] ∧
        m'.ports = m.ports ∧ m'.instances = m.instances ∧ m'.interfaces = m.interfaces) ∧
      (∀ p ∈ net, ∀ i, p.owner = .inst i → h'.connAt i p.portname = some (.sig h.fresh)) := by
  have hunf : processNetIS mid net h =
      rewireNet (.sig h.fresh) net
        ((h.allocSig { ps with vis := .INTERNAL, direction := .NONE, name := signame }).1.updMod
          mid (fun mm => mm.addSig signame h.fresh .INTERNAL)) := by
    rw [processNetIS]
    simp only [hfind, hmod, hseg, hname, hlast, hio, hinst, hres, hlm, hport, hpsig]
    rfl
  set h2 := (h.allocSig { ps with vis := .INTERNAL, direction := .NONE, name := signame }).1.updMod
    mid (fun mm => mm.addSig signame h.fresh .INTERNAL) with hh2
  have hown2 : ∀ p ∈ net, ∃ i, p.owner = .inst i ∧ (alookup i h2.insts).isSome := by
    intro p hp
    obtain ⟨i, inst', hio', hinst'⟩ := hown p hp
    refine ⟨i, hio', ?_⟩
    have : h2.insts = h.insts := by
      rw [hh2]
      simp
    rw [this, hinst']
    rfl
  obtain ⟨h', hrw, hmods, hsigs, hintfs, hcalls, hfresh, hdom, hpres, hconns⟩ :=
    rewireNet_ok (.sig h.fresh) net h2 hown2
  refine ⟨h', by rw [hunf]; exact hrw, ?_, ?_, ?_⟩
  · rw [hsigs, hh2]
    simp
  · refine ⟨m.addSig signame h.fresh .INTERNAL, ?_, rfl, rfl, rfl, rfl, rfl⟩
    rw [hmods, hh2, alookup_updMod_self]
    simp [hmod]
  · intro p hp i hpo
    exact hconns p hp i hpo

/-- Concrete data for the C4 witness: parent `P` with instances `x : Y`
and `y : Y` whose ports `p`, `q` are tied together by PortRefs. -/
def heapC4 : Heap :=
  { mods := [(0, { name := some "P", ports := [], signals := [],
                   instances := [("x", 1), ("y", 2)], interfaces := [],
                   ns := [("x", .inst 1), ("y", .inst 2)] }),
             (4, { name := some "Y", ports := [("q", 11)], signals := [],
                   instances := [], interfaces := [], ns := [("q", .sig 11)] })]
    sigs := [(11, { name := "q", vis := .PORT, direction := .INPUT, src := none, dest := none })]
    intfs := []
    insts := [(1, { name := "x", of := .module 4,
                    conns := [("p", .portref ⟨.inst 2, "q"⟩)], elaborated := false }),
              (2, { name := "y", of := .module 4,
                    conns := [("q", .portref ⟨.inst 1, "p"⟩)], elaborated := false })]
    calls := []
    fresh := 50 }

def netC4 : List PortRef := [⟨.inst 1, "p"⟩, ⟨.inst 2, "q"⟩]

/-- The heap produced by processing `netC4`. -/
def heapC4res : Heap :=
  match processNetIS 0 netC4 heapC4 with
  | .ok h' => h'
  | .error _ => heapC4

theorem implicit_scalar_net_creation_witness :
    processNetIS 0 netC4 heapC4 = .ok heapC4res ∧
    heapC4res.sigs = heapC4.sigs ++
      [(50, { name := "_x_p_y_q_", vis := .INTERNAL, direction := .NONE,
              src := none, dest := none })] ∧
    heapC4res.connAt 1 "p" = some (.sig 50) ∧
    heapC4res.connAt 2 "q" = some (.sig 50) := by
  have hown : ∀ p ∈ netC4, ∃ i inst', p.owner = .inst i ∧ alookup i heapC4.insts = some inst' := by
    intro p hp
    simp only [netC4, List.mem_cons, List.not_mem_nil, or_false] at hp
    rcases hp with rfl | rfl
    · exact ⟨1, _, rfl, rfl⟩
    · exact ⟨2, _, rfl, rfl⟩
  obtain ⟨h', hok, hsigs, hmod', hconns⟩ :=
    implicit_scalar_net_creation heapC4 0 netC4
      { name := some "P", ports := [], signals := [],
        instances := [("x", 1), ("y", 2)], interfaces := [],
        ns := [("x", .inst 1), ("y", .inst 2)] }
      ["x_p", "y_q"] "_x_p_y_q_" ⟨.inst 2, "q"⟩ 2
      { name := "y", of := .module 4,
        conns := [("q", .portref ⟨.inst 1, "p"⟩)], elaborated := false }
      4
      { name := some "Y", ports := [("q", 11)], signals := [],
        instances := [], interfaces := [], ns := [("q", .sig 11)] }
      11
      { name := "q", vis := .PORT, direction := .INPUT, src := none, dest := none }
      hown rfl rfl rfl rfl rfl rfl rfl rfl rfl rfl rfl
  have hres : heapC4res = h' := by
    rw [heapC4res, hok]
  refine ⟨by rw [hres]; exact hok, by rw [hres]; exact hsigs, ?_, ?_⟩
  · rw [hres]
    exact hconns ⟨.inst 1, "p"⟩ (by simp [netC4]) 1 rfl
  · rw [hres]
    exact hconns ⟨.inst 2, "q"⟩ (by simp [netC4]) 2 rfl

/-! ## Claim C8 -/

/-- C8: `flatname(segments, avoid, maxlen)` returns
`"_" + join(segments, "_") + "_"` when that string avoids `avoid` (and
fits); on each collision with a key of `avoid` it wraps the candidate in one
more leading and one more trailing underscore and retries until unique; it
raises an error when the candidate under consideration exceeds `maxlen`
characters; consequently a returned name is never in `avoid` and never
longer than `maxlen`. -/
theorem flatname_spec (segments : List String) (avoid : List Name) (maxlen : Nat)
    (base : String) (hbase : base = "_" ++ String.intercalate "_" segments ++ "_") :
    (base ∉ avoid → base.length ≤ maxlen → flatname segments avoid maxlen = .ok base) ∧
    (∀ n, flatname segments avoid maxlen = .ok n →
      n ∉ avoid ∧ n.length ≤ maxlen ∧
      ∃ k, n = wrapN k base ∧
        ∀ j < k, wrapN j base ∈ avoid ∧ (wrapN j base).length ≤ maxlen) ∧
    (∀ e, flatname segments avoid maxlen = .error e →
      ∃ k, (wrapN k base).length > maxlen ∧
        ∀ j < k, wrapN j base ∈ avoid ∧ (wrapN j base).length ≤ maxlen) := by
  have hdef : flatname segments avoid maxlen = flatnameGo avoid maxlen (maxlen + 1) base := by
    rw [flatname, hbase]
  have had : 2 * (maxlen + 1) + base.length ≥ maxlen + 2 := by omega
  have hspec := flatnameGo_spec avoid maxlen (maxlen + 1) base had
  refine ⟨?_, ?_, ?_⟩
  · intro hav hlen
    rw [hdef, flatnameGo, if_neg (by omega), if_neg hav]
  · intro n hn
    rw [hdef] at hn
    obtain ⟨k, hk1, hk2, hk3, hk4⟩ := hspec.1 n hn
    exact ⟨hk3, hk2, k, hk1, hk4⟩
  · intro e he
    rw [hdef] at he
    exact hspec.2 e he

theorem flatname_spec_witness :
    (flatname ["a", "b"] ["_a_b_"] 511 = .ok "__a_b__") ∧
    ("__a_b__" ∉ ["_a_b_"] ∧ ("__a_b__" : String).length ≤ 511 ∧
      ∃ k, "__a_b__" = wrapN k "_a_b_" ∧
        ∀ j < k, wrapN j "_a_b_" ∈ ["_a_b_"] ∧ (wrapN j "_a_b_").length ≤ 511) := by
  refine ⟨rfl, ?_⟩
  exact (flatname_spec ["a", "b"] ["_a_b_"] 511 "_a_b_" rfl).2.1 "__a_b__" rfl

/-! ## The `InterfaceFlattener` pass (elab.py lines 315-428) -/

/-- `FlatInterfaceInst` (elab.py lines 315-322): a flattened hierarchical
interface, resolved to constituent Signals keyed by original signal name
(nested signals under their flattened names). -/
structure FlatIntf where
  inst_name : Name
  src : Interface
  signals : List (Name × SigId)

/-- The deep copy `copy.deepcopy(intf.of.signals)` (line 418): fresh Signal
objects keyed by their original names. -/
def allocSigDatas (h : Heap) : List SigData → Heap × List (Name × SigId)
  | [] => (h, [])
  | sd :: rest =>
    let al := h.allocSig { name := sd.name, vis := sd.vis, direction := sd.direction,
                           src := sd.src, dest := sd.dest }
    let r := allocSigDatas al.1 rest
    (r.1, (sd.name, al.2) :: r.2)

/-- The rename-and-merge loop over a nested interface's flattened signals
(elab.py lines 423-427): `signame = flatname([i.name, sig.name],
avoid=flat.signals); sig.name = signame; flat.signals[signame] = sig`. -/
def mergeFlat (fname : Name) : List (Name × SigId) → Heap → FlatIntf →
    Except Err (Heap × FlatIntf)
  | [], h, flat => .ok (h, flat)
  | (_, sid) :: rest, h, flat =>
    match alookup sid h.sigs with
    | none => .error (.runtimeError "missing Signal")
    | some sg =>
      match flatname [fname, sg.name] (akeys flat.signals) with
      | .error e => .error e
      | .ok signame =>
        mergeFlat fname rest (h.updSig sid (fun s => { s with name := signame }))
          { flat with signals := flat.signals ++ [(signame, sid)] }

mutual

/-- `InterfaceFlattener.flatten_interface` (elab.py lines 411-428), fueled
by recursion depth. -/
def flattenIntf : Nat → Name → Interface → Heap → Except Err (Heap × FlatIntf)
  | 0, _, _, _ => .error .outOfFuel
  | fuel + 1, instName, ofI, h =>
    let dc := allocSigDatas h ofI.signals
    flattenNested fuel dc.1 ⟨instName, ofI, dc.2⟩ ofI.interfaces

/-- The depth-first walk over an interface definition's nested interface
fields (elab.py lines 421-427). -/
def flattenNested : Nat → Heap → FlatIntf → List (Name × Interface) →
    Except Err (Heap × FlatIntf)
  | 0, _, _, _ => .error .outOfFuel
  | _ + 1, h, flat, [] => .ok (h, flat)
  | fuel + 1, h, flat, (fname, fintf) :: rest =>
    match flattenIntf fuel fname fintf h with
    | .error e => .error e
    | .ok (h1, iflat) =>
      match mergeFlat fname iflat.signals h1 flat with
      | .error e => .error e
      | .ok (h2, flat2) => flattenNested fuel h2 flat2 rest

end

/-- The visibility and direction computed for one flattened Signal
(elab.py lines 359-371): PORT with a role-derived direction when the bundle
is a port, INTERNAL and NONE otherwise. -/
def flatVisDir (intf : IntfInst) (sg : Signal) : Visibility × PortDir :=
  if intf.port then
    (.PORT,
      match intf.role with
      | none => .NONE
      | some r =>
        if sg.src = some r then .OUTPUT
        else if sg.dest = some r then .INPUT
        else .NONE)
  else (.INTERNAL, .NONE)

/-- The per-signal attribute loop of the flattening while-body
(elab.py lines 356-377): name each flattened Signal via `flatname` against
the module namespace, set visibility PORT and a role-derived direction when
the bundle is a port (else INTERNAL and NONE), and add it to the module. -/
def flatSigAssign (mid : ModId) (intf : IntfInst) :
    List (Name × SigId) → Heap → Except Err Heap
  | [], h => .ok h
  | (_, sid) :: rest, h =>
    match alookup mid h.mods with
    | none => .error (.runtimeError "missing Module")
    | some m =>
      match alookup sid h.sigs with
      | none => .error (.runtimeError "missing Signal")
      | some sg =>
        match flatname [intf.name, sg.name] (akeys m.ns) with
        | .error e => .error e
        | .ok signame =>
          let vd := flatVisDir intf sg
          let h1 := h.updSig sid
            (fun s => { s with name := signame, vis := vd.1, direction := vd.2 })
          flatSigAssign mid intf rest (h1.updMod mid (fun mm => mm.addSig signame sid vd.1))

/-- Inner loop of the instance-connection rewrite (elab.py lines 385-387):
for each field of the flat bundle, look the child's corresponding flattened
port up in the child's replacement table and connect it by that name. -/
def connAddLoop (iflat : FlatIntf) (iid : InstId) :
    List (Name × SigId) → Heap → Except Err Heap
  | [], h => .ok h
  | (fkey, fsid) :: rest, h =>
    match alookup fkey iflat.signals with
    | none => .error (.runtimeError "KeyError: flat signal")
    | some innerSid =>
      match alookup innerSid h.sigs with
      | none => .error (.runtimeError "missing Signal")
      | some innerSg =>
        connAddLoop iflat iid rest
          (h.updInst iid (fun i => { i with conns := aupd innerSg.name (.sig fsid) i.conns }))

/-- The per-instance connection rewrite (elab.py lines 380-389): for every
snapshot connection key bound to this InterfaceInstance, splice in the
flattened signals via the child's replacement table and drop the original
bundle connection. -/
def rewriteConnsForInst (repl : List (ModId × List (Name × FlatIntf))) (fid : IntfId)
    (flatsigs : List (Name × SigId)) (iid : InstId) :
    List Name → Heap → Except Err Heap
  | [], h => .ok h
  | portname :: rest, h =>
    match alookup iid h.insts with
    | none => .error (.runtimeError "missing Instance")
    | some inst =>
      match alookup portname inst.conns with
      | some (.intf f) =>
        if f = fid then
          match h.resolvedOf inst with
          | some (.module rm) =>
            match alookup rm repl with
            | none => .error (.runtimeError "KeyError: replacements")
            | some irepl =>
              match alookup portname irepl with
              | none => .error (.runtimeError "KeyError: port replacement")
              | some iflat =>
                match connAddLoop iflat iid flatsigs h with
                | .error e => .error e
                | .ok h1 =>
                  rewriteConnsForInst repl fid flatsigs iid rest
                    (h1.updInst iid (fun i => { i with conns := aerase portname i.conns }))
          | _ => .error (.runtimeError "KeyError: replacements")
        else
          rewriteConnsForInst repl fid flatsigs iid rest h
      | _ => rewriteConnsForInst repl fid flatsigs iid rest h

/-- Outer loop of the instance-connection rewrite over all instances. -/
def rewriteConnsLoop (repl : List (ModId × List (Name × FlatIntf))) (fid : IntfId)
    (flatsigs : List (Name × SigId)) :
    List (Name × InstId) → Heap → Except Err Heap
  | [], h => .ok h
  | (_, iid) :: rest, h =>
    match alookup iid h.insts with
    | none => .error (.runtimeError "missing Instance")
    | some inst =>
      match rewriteConnsForInst repl fid flatsigs iid (akeys inst.conns) h with
      | .error e => .error e
      | .ok h1 => rewriteConnsLoop repl fid flatsigs rest h1

/-- Replace every instance connection equal to a given PortRef by the
flattened Signal (elab.py lines 401-405). -/
def replacePortrefConns (pref : PortRef) (fsid : SigId) :
    List (Name × InstId) → Heap → Heap
  | [], h => h
  | (_, iid) :: rest, h =>
    replacePortrefConns pref fsid rest
      (h.updInst iid (fun i =>
        { i with conns :=
            i.conns.map (fun pc => if pc.2 = .portref pref then (pc.1, .sig fsid) else pc) }))

/-- The PortRef re-connection loop (elab.py lines 395-405): for every
PortRef the interface has handed out, find the flattened signal of that
port name and replace matching connections across the module's instances. -/
def rewritePortrefs (flatsigs : List (Name × SigId)) (mid : ModId) :
    List (Name × PortRef) → Heap → Except Err Heap
  | [], h => .ok h
  | (_, pref) :: rest, h =>
    match alookup pref.portname flatsigs with
    | none => .error (.runtimeError "Port not found in Interface")
    | some fsid =>
      match alookup mid h.mods with
      | none => .error (.runtimeError "missing Module")
      | some m =>
        rewritePortrefs flatsigs mid rest (replacePortrefConns pref fsid m.instances h)

/-- One iteration of the flattening while-loop (elab.py lines 348-405),
after the caller has popped `(name, fid)` from the module's interface map
and namespace: flatten the InterfaceInstance, assign and add its Signals,
rewire bundle connections and handed-out PortRefs. -/
def flattenOne (fuel : Nat) (repl : List (ModId × List (Name × FlatIntf))) (mid : ModId)
    (fid : IntfId) (h : Heap) : Except Err (Heap × FlatIntf) :=
  match alookup fid h.intfs with
  | none => .error (.runtimeError "missing InterfaceInstance")
  | some intf =>
    match flattenIntf fuel intf.name intf.of h with
    | .error e => .error e
    | .ok (h1, flat) =>
      match flatSigAssign mid intf flat.signals h1 with
      | .error e => .error e
      | .ok h2 =>
        match alookup mid h2.mods with
        | none => .error (.runtimeError "missing Module")
        | some m =>
          match rewriteConnsLoop repl fid flat.signals m.instances h2 with
          | .error e => .error e
          | .ok h3 =>
            match rewritePortrefs flat.signals mid intf.portrefs h3 with
            | .error e => .error e
            | .ok h4 => .ok (h4, flat)

/-- The `while module.interfaces:` loop (elab.py line 348): pop the most
recently added InterfaceInstance (`dict.popitem`), remove its namespace
entry (`dict.pop`, a KeyError when absent), flatten it, and accumulate the
local `replacements` table. -/
def intfLoop : Nat → List (ModId × List (Name × FlatIntf)) → ModId →
    List (Name × FlatIntf) → Heap → Except Err (List (Name × FlatIntf) × Heap)
  | 0, _, _, _, _ => .error .outOfFuel
  | fuel + 1, repl, mid, acc, h =>
    match alookup mid h.mods with
    | none => .error (.runtimeError "missing Module")
    | some m =>
      match m.interfaces.getLast? with
      | none => .ok (acc, h)
      | some (name, fid) =>
        if (alookup name m.ns).isNone then
          .error (.runtimeError "KeyError: namespace")
        else
          let h0 := h.updMod mid (fun mm =>
            { mm with interfaces := mm.interfaces.dropLast, ns := aerase name mm.ns })
          match flattenOne fuel repl mid fid h0 with
          | .error e => .error e
          | .ok (h1, flat) => intfLoop fuel repl mid (aupd name flat acc) h1

/-- State of the `InterfaceFlattener` pass: the heap, the per-module
memoization (`self.modules`), the per-module replacement tables
(`self.replacements`), and the ghost work log. -/
structure FlatSt where
  heap : Heap
  modCache : List ModId
  repl : List (ModId × List (Name × FlatIntf))
  log : List ModId

/-- The `InterfaceFlattener` pass (elab.py lines 325-409) as a fueled
dispatcher.  Unlike `ImplicitSignals`, this pass memoizes per-module work
by module identity. -/
def ifStep : Nat → PassTask → FlatSt → Except Err (Option ModId × FlatSt)
  | 0, _, _ => .error .outOfFuel
  | fuel + 1, .module mid, s =>
    if mid ∈ s.modCache then .ok (some mid, s)
    else
      match alookup mid s.heap.mods with
      | none => .error (.runtimeError "missing Module")
      | some m =>
        let s0 := { s with log := s.log ++ [mid] }
        match ifStep fuel (.insts m.instances) s0 with
        | .error e => .error e
        | .ok (_, s1) =>
          match intfLoop fuel s1.repl mid [] s1.heap with
          | .error e => .error e
          | .ok (replacements, h2) =>
            .ok (some mid, { heap := h2, modCache := s1.modCache ++ [mid],
                             repl := aupd mid replacements s1.repl, log := s1.log })
  | _ + 1, .insts [], s => .ok (none, s)
  | fuel + 1, .insts (p :: rest), s =>
    match ifStep fuel (.inst p.2) s with
    | .error e => .error e
    | .ok (_, s1) => ifStep fuel (.insts rest) s1
  | fuel + 1, .inst iid, s =>
    let s0 : FlatSt :=
      { s with heap := s.heap.updInst iid (fun i => { i with elaborated := true }) }
    match alookup iid s0.heap.insts with
    | none => .error (.runtimeError "missing Instance")
    | some inst =>
      match s0.heap.resolvedOf inst with
      | none => .error (.runtimeError "Error elaborating undefined Instance")
      | some (.module m') => ifStep fuel (.module m') s0
      | some .prim => .ok (none, s0)
      | some .ext => .ok (none, s0)

/-! ## Lemmas about `updSig` -/

@[simp] theorem updSig_mods (h : Heap) (i : SigId) (f : Signal → Signal) :
    (h.updSig i f).mods = h.mods := by
  unfold Heap.updSig
  split <;> rfl

@[simp] theorem updSig_insts (h : Heap) (i : SigId) (f : Signal → Signal) :
    (h.updSig i f).insts = h.insts := by
  unfold Heap.updSig
  split <;> rfl

@[simp] theorem updSig_intfs (h : Heap) (i : SigId) (f : Signal → Signal) :
    (h.updSig i f).intfs = h.intfs := by
  unfold Heap.updSig
  split <;> rfl

@[simp] theorem updSig_calls (h : Heap) (i : SigId) (f : Signal → Signal) :
    (h.updSig i f).calls = h.calls := by
  unfold Heap.updSig
  split <;> rfl

@[simp] theorem updSig_fresh (h : Heap) (i : SigId) (f : Signal → Signal) :
    (h.updSig i f).fresh = h.fresh := by
  unfold Heap.updSig
  split <;> rfl

theorem alookup_updSig_self (h : Heap) (i : SigId) (f : Signal → Signal) :
    alookup i (h.updSig i f).sigs = (alookup i h.sigs).map f := by
  unfold Heap.updSig
  cases hl : alookup i h.sigs with
  | none => simp [hl]
  | some r => simp [hl, alookup_aupd_self]

theorem alookup_updSig_other (h : Heap) {i j : SigId} (hne : i ≠ j) (f : Signal → Signal) :
    alookup i (h.updSig j f).sigs = alookup i h.sigs := by
  unfold Heap.updSig
  cases hl : alookup j h.sigs with
  | none => simp [hl]
  | some r => simp [hl, alookup_aupd_ne hne]

/-! ## Identifier freshness of flattening -/

theorem allocSigDatas_ids : ∀ (sds : List SigData) (h h' : Heap) (l : List (Name × SigId)),
    allocSigDatas h sds = (h', l) →
    h'.fresh = h.fresh + sds.length ∧
    (∀ pr ∈ l, h.fresh ≤ pr.2 ∧ pr.2 < h'.fresh) ∧
    (l.map Prod.snd).Nodup := by
  intro sds
  induction sds with
  | nil =>
    intro h h' l heq
    rw [allocSigDatas] at heq
    cases heq
    refine ⟨rfl, ?_, by simp⟩
    intro pr hpr
    simp at hpr
  | cons sd rest ih =>
    intro h h' l heq
    have heq2 : ((allocSigDatas (h.allocSig { name := sd.name, vis := sd.vis, direction := sd.direction, src := sd.src, dest := sd.dest }).1 rest).1, ((sd.name, h.fresh) :: (allocSigDatas (h.allocSig { name := sd.name, vis := sd.vis, direction := sd.direction, src := sd.src, dest := sd.dest }).1 rest).2 : List (Name × SigId))) = (h', l) := heq
    clear heq
    cases heq2
    obtain ⟨ih1, ih2, ih3⟩ := ih (h.allocSig { name := sd.name, vis := sd.vis, direction := sd.direction, src := sd.src, dest := sd.dest }).1 _ _ rfl
    have hfr : (h.allocSig { name := sd.name, vis := sd.vis, direction := sd.direction, src := sd.src, dest := sd.dest }).1.fresh = h.fresh + 1 := rfl
    rw [hfr] at ih1
    refine ⟨by rw [ih1, List.length_cons]; omega, ?_, ?_⟩
    · intro pr hpr
      rcases List.mem_cons.mp hpr with hpr | hpr
      · subst hpr
        refine ⟨le_refl _, ?_⟩
        show h.fresh < _
        rw [ih1]
        omega
      · have h12 := ih2 pr hpr
        rw [hfr] at h12
        exact ⟨by omega, h12.2⟩
    · simp only [List.map_cons]
      refine List.nodup_cons.mpr ⟨?_, ih3⟩
      intro hmem
      obtain ⟨pr, hpr, hpr2⟩ := List.mem_map.mp hmem
      have h12 := ih2 pr hpr
      rw [hfr] at h12
      have hlt : h.fresh < pr.2 := lt_of_lt_of_le (Nat.lt_succ_self h.fresh) h12.1
      exact absurd hpr2 (Nat.ne_of_gt hlt)

theorem mergeFlat_facts (fname : Name) : ∀ (sigs : List (Name × SigId)) (h : Heap)
    (flat : FlatIntf) (h1 : Heap) (flat1 : FlatIntf),
    mergeFlat fname sigs h flat = .ok (h1, flat1) →
    h1.fresh = h.fresh ∧
    flat1.signals.map Prod.snd = flat.signals.map Prod.snd ++ sigs.map Prod.snd := by
  intro sigs
  induction sigs with
  | nil =>
    intro h flat h1 flat1 hm
    rw [mergeFlat] at hm
    cases hm
    simp
  | cons pr rest ih =>
    intro h flat h1 flat1 hm
    obtain ⟨k, sid⟩ := pr
    rw [mergeFlat] at hm
    cases hsg : alookup sid h.sigs with
    | none =>
      simp only [hsg] at hm
      exact Except.noConfusion hm
    | some sg =>
      simp only [hsg] at hm
      cases hfn : flatname [fname, sg.name] (akeys flat.signals) with
      | error e =>
        simp only [hfn] at hm
        exact Except.noConfusion hm
      | ok signame =>
        simp only [hfn] at hm
        obtain ⟨ih1, ih2⟩ := ih _ _ _ _ hm
        refine ⟨by rw [ih1]; simp, ?_⟩
        rw [ih2]
        simp

/-- Freshness and distinctness of the Signal identities produced by
`flatten_interface`: all freshly allocated, mutually distinct. -/
theorem flatten_ids (fuel : Nat) :
    (∀ nm ofI h h1 flat, flattenIntf fuel nm ofI h = .ok (h1, flat) →
      h.fresh ≤ h1.fresh ∧ (∀ pr ∈ flat.signals, h.fresh ≤ pr.2 ∧ pr.2 < h1.fresh) ∧
      (flat.signals.map Prod.snd).Nodup) ∧
    (∀ h flat l h1 flat1 lb, flattenNested fuel h flat l = .ok (h1, flat1) →
      lb ≤ h.fresh →
      (∀ pr ∈ flat.signals, lb ≤ pr.2 ∧ pr.2 < h.fresh) →
      (flat.signals.map Prod.snd).Nodup →
      h.fresh ≤ h1.fresh ∧ (∀ pr ∈ flat1.signals, lb ≤ pr.2 ∧ pr.2 < h1.fresh) ∧
      (flat1.signals.map Prod.snd).Nodup) := by
  induction fuel with
  | zero =>
    constructor
    · intro nm ofI h h1 flat hf
      rw [flattenIntf] at hf
      cases hf
    · intro h flat l h1 flat1 lb hf
      rw [flattenNested] at hf
      cases hf
  | succ fuel ih =>
    constructor
    · intro nm ofI h h1 flat hf
      rw [flattenIntf] at hf
      obtain ⟨ha1, ha2, ha3⟩ := allocSigDatas_ids ofI.signals h
        (allocSigDatas h ofI.signals).1 (allocSigDatas h ofI.signals).2 rfl
      have hle : h.fresh ≤ (allocSigDatas h ofI.signals).1.fresh := by
        rw [ha1]
        exact Nat.le_add_right _ _
      obtain ⟨hn1, hn2, hn3⟩ := ih.2 _ _ _ _ _ h.fresh hf hle ha2 ha3
      exact ⟨le_trans hle hn1, hn2, hn3⟩
    · intro h flat l h1 flat1 lb hf hlb hbnd hnd
      match l with
      | [] =>
        rw [flattenNested] at hf
        cases hf
        exact ⟨le_refl _, hbnd, hnd⟩
      | (fname, fintf) :: rest =>
        rw [flattenNested] at hf
        cases hflat : flattenIntf fuel fname fintf h with
        | error e =>
          simp only [hflat] at hf
          exact Except.noConfusion hf
        | ok pr1 =>
          obtain ⟨hi, iflat⟩ := pr1
          simp only [hflat] at hf
          cases hmerge : mergeFlat fname iflat.signals hi flat with
          | error e =>
            simp only [hmerge] at hf
            exact Except.noConfusion hf
          | ok pr2 =>
            obtain ⟨h2, flat2⟩ := pr2
            simp only [hmerge] at hf
            obtain ⟨hf1, hf2, hf3⟩ := ih.1 _ _ _ _ _ hflat
            obtain ⟨hm1, hm2⟩ := mergeFlat_facts _ _ _ _ _ _ hmerge
            have hbnd2 : ∀ pr ∈ flat2.signals, lb ≤ pr.2 ∧ pr.2 < h2.fresh := by
              intro pr hpr
              have hmm : pr.2 ∈ flat2.signals.map Prod.snd := List.mem_map_of_mem _ hpr
              rw [hm2] at hmm
              rw [hm1]
              rcases List.mem_append.mp hmm with hmm | hmm
              · obtain ⟨q, hq, hq2⟩ := List.mem_map.mp hmm
                rw [← hq2]
                exact ⟨(hbnd q hq).1, lt_of_lt_of_le (hbnd q hq).2 hf1⟩
              · obtain ⟨q, hq, hq2⟩ := List.mem_map.mp hmm
                rw [← hq2]
                exact ⟨le_trans hlb (hf2 q hq).1, (hf2 q hq).2⟩
            have hnd2 : (flat2.signals.map Prod.snd).Nodup := by
              rw [hm2]
              refine List.Nodup.append hnd hf3 ?_
              intro a ha hb
              obtain ⟨q, hq, hq2⟩ := List.mem_map.mp ha
              obtain ⟨q', hq', hq2'⟩ := List.mem_map.mp hb
              have hx1 : a < h.fresh := hq2 ▸ (hbnd q hq).2
              have hx2 : h.fresh ≤ a := hq2' ▸ (hf2 q' hq').1
              exact absurd hx1 (Nat.not_lt.mpr hx2)
            have hlb2 : lb ≤ h2.fresh := by
              rw [hm1]
              exact le_trans hlb (le_trans (le_refl h.fresh) hf1)
            obtain ⟨hr1, hr2, hr3⟩ := ih.2 _ _ _ _ _ lb hf hlb2 hbnd2 hnd2
            refine ⟨?_, hr2, hr3⟩
            rw [hm1] at hr1
            exact le_trans hf1 hr1

/-! ## Visibility and direction of flattened signals -/

/-- The property claimed for a Signal produced by bundle flattening:
visibility is PORT exactly when the bundle was a port; the direction is
OUTPUT when the bundle's role equals the signal's `src`, INPUT when it
equals `dest` (and differs from `src`), NONE otherwise, and NONE whenever
the bundle has no role; a non-port bundle yields INTERNAL visibility and
NONE direction. -/
def FlatVisDirOk (intf : IntfInst) (sg : Signal) : Prop :=
  (sg.vis = .PORT ↔ intf.port = true) ∧
  (intf.port = true →
    (intf.role = none → sg.direction = .NONE) ∧
    (∀ r, intf.role = some r →
      (sg.src = some r → sg.direction = .OUTPUT) ∧
      (sg.src ≠ some r → sg.dest = some r → sg.direction = .INPUT) ∧
      (sg.src ≠ some r → sg.dest ≠ some r → sg.direction = .NONE))) ∧
  (intf.port = false → sg.vis = .INTERNAL ∧ sg.direction = .NONE)

/-- The record written by the per-signal attribute loop satisfies the
claimed visibility/direction discipline. -/
theorem flatVisDirOk_mk (intf : IntfInst) (sg : Signal) (nm : Name) :
    FlatVisDirOk intf { sg with name := nm, vis := (flatVisDir intf sg).1, direction := (flatVisDir intf sg).2 } := by
  refine ⟨?_, ?_, ?_⟩
  · show (flatVisDir intf sg).1 = .PORT ↔ intf.port = true
    unfold flatVisDir
    by_cases hp : intf.port <;> simp [hp]
  · intro hp
    refine ⟨?_, ?_⟩
    · intro hr
      show (flatVisDir intf sg).2 = .NONE
      unfold flatVisDir
      simp [hp, hr]
    · intro r hr
      refine ⟨?_, ?_, ?_⟩
      · intro hsrc
        have hsrc' : sg.src = some r := hsrc
        show (flatVisDir intf sg).2 = .OUTPUT
        unfold flatVisDir
        simp [hp, hr, hsrc']
      · intro hnsrc hdst
        have hnsrc' : ¬ sg.src = some r := hnsrc
        have hdst' : sg.dest = some r := hdst
        show (flatVisDir intf sg).2 = .INPUT
        unfold flatVisDir
        simp [hp, hr, hnsrc', hdst']
      · intro hnsrc hndst
        have hnsrc' : ¬ sg.src = some r := hnsrc
        have hndst' : ¬ sg.dest = some r := hndst
        show (flatVisDir intf sg).2 = .NONE
        unfold flatVisDir
        simp [hp, hr, hnsrc', hndst']
  · intro hp
    constructor
    · show (flatVisDir intf sg).1 = .INTERNAL
      unfold flatVisDir
      simp [hp]
    · show (flatVisDir intf sg).2 = .NONE
      unfold flatVisDir
      simp [hp]

theorem flatSigAssign_preserves (mid : ModId) (intf : IntfInst) :
    ∀ (sigs : List (Name × SigId)) (h h' : Heap),
      flatSigAssign mid intf sigs h = .ok h' →
      ∀ sid, sid ∉ sigs.map Prod.snd → alookup sid h'.sigs = alookup sid h.sigs := by
  intro sigs
  induction sigs with
  | nil =>
    intro h h' hok sid _
    rw [flatSigAssign] at hok
    cases hok
    rfl
  | cons pr rest ih =>
    intro h h' hok sid hsid
    obtain ⟨k, sid0⟩ := pr
    rw [flatSigAssign] at hok
    cases hm : alookup mid h.mods with
    | none =>
      simp only [hm] at hok
      exact Except.noConfusion hok
    | some m =>
      simp only [hm] at hok
      cases hsg : alookup sid0 h.sigs with
      | none =>
        simp only [hsg] at hok
        exact Except.noConfusion hok
      | some sg =>
        simp only [hsg] at hok
        cases hfn : flatname [intf.name, sg.name] (akeys m.ns) with
        | error e =>
          simp only [hfn] at hok
          exact Except.noConfusion hok
        | ok signame =>
          simp only [hfn] at hok
          have hne : sid ≠ sid0 := by
            intro hh
            exact hsid (by simp [hh])
          have hrest : sid ∉ rest.map Prod.snd := by
            intro hh
            exact hsid (by simp [hh])
          rw [ih _ _ hok sid hrest]
          rw [updMod_sigs, alookup_updSig_other _ hne]

theorem flatSigAssign_sets (mid : ModId) (intf : IntfInst) :
    ∀ (sigs : List (Name × SigId)) (h h' : Heap),
      flatSigAssign mid intf sigs h = .ok h' →
      (sigs.map Prod.snd).Nodup →
      ∀ pr ∈ sigs, ∃ sg, alookup pr.2 h'.sigs = some sg ∧ FlatVisDirOk intf sg := by
  intro sigs
  induction sigs with
  | nil =>
    intro h h' hok hnd pr hpr
    simp at hpr
  | cons pr0 rest ih =>
    intro h h' hok hnd pr hpr
    obtain ⟨k, sid0⟩ := pr0
    rw [flatSigAssign] at hok
    cases hm : alookup mid h.mods with
    | none =>
      simp only [hm] at hok
      exact Except.noConfusion hok
    | some m =>
      simp only [hm] at hok
      cases hsg : alookup sid0 h.sigs with
      | none =>
        simp only [hsg] at hok
        exact Except.noConfusion hok
      | some sg =>
        simp only [hsg] at hok
        cases hfn : flatname [intf.name, sg.name] (akeys m.ns) with
        | error e =>
          simp only [hfn] at hok
          exact Except.noConfusion hok
        | ok signame =>
          simp only [hfn] at hok
          have hnd' : (rest.map Prod.snd).Nodup := (List.nodup_cons.mp (by simpa using hnd)).2
          have hnotin : sid0 ∉ rest.map Prod.snd := (List.nodup_cons.mp (by simpa using hnd)).1
          rcases List.mem_cons.mp hpr with hpr | hpr
          · subst hpr
            refine ⟨{ sg with name := signame, vis := (flatVisDir intf sg).1, direction := (flatVisDir intf sg).2 }, ?_, ?_⟩
            · rw [flatSigAssign_preserves mid intf rest _ _ hok _ hnotin]
              rw [updMod_sigs, alookup_updSig_self, hsg]
              rfl
            · exact flatVisDirOk_mk intf sg signame
          · exact ih _ _ hok hnd' pr hpr

/-! ## The connection-rewrite loops do not touch Signals -/

theorem connAddLoop_sigs (iflat : FlatIntf) (iid : InstId) :
    ∀ l h h', connAddLoop iflat iid l h = .ok h' → h'.sigs = h.sigs := by
  intro l
  induction l with
  | nil =>
    intro h h' hok
    rw [connAddLoop] at hok
    cases hok
    rfl
  | cons pr rest ih =>
    intro h h' hok
    obtain ⟨fkey, fsid⟩ := pr
    rw [connAddLoop] at hok
    cases h1 : alookup fkey iflat.signals with
    | none =>
      simp only [h1] at hok
      exact Except.noConfusion hok
    | some innerSid =>
      simp only [h1] at hok
      cases h2 : alookup innerSid h.sigs with
      | none =>
        simp only [h2] at hok
        exact Except.noConfusion hok
      | some innerSg =>
        simp only [h2] at hok
        rw [ih _ _ hok]
        simp

theorem rewriteConnsForInst_sigs (repl : List (ModId × List (Name × FlatIntf))) (fid : IntfId)
    (flatsigs : List (Name × SigId)) (iid : InstId) :
    ∀ keys h h', rewriteConnsForInst repl fid flatsigs iid keys h = .ok h' →
      h'.sigs = h.sigs := by
  intro keys
  induction keys with
  | nil =>
    intro h h' hok
    rw [rewriteConnsForInst] at hok
    cases hok
    rfl
  | cons portname rest ih =>
    intro h h' hok
    rw [rewriteConnsForInst] at hok
    cases h1 : alookup iid h.insts with
    | none =>
      simp only [h1] at hok
      exact Except.noConfusion hok
    | some inst =>
      simp only [h1] at hok
      cases h2 : alookup portname inst.conns with
      | none =>
        simp only [h2] at hok
        exact ih _ _ hok
      | some conn =>
        simp only [h2] at hok
        cases conn with
        | sig s =>
          simp only [] at hok
          exact ih _ _ hok
        | portref p =>
          simp only [] at hok
          exact ih _ _ hok
        | intf f =>
          simp only [] at hok
          by_cases hfe : f = fid
          · simp only [hfe, if_true, ite_true] at hok
            cases h3 : h.resolvedOf inst with
            | none =>
              simp only [h3] at hok
              exact Except.noConfusion hok
            | some r =>
              cases r with
              | prim =>
                simp only [h3] at hok
                exact Except.noConfusion hok
              | ext =>
                simp only [h3] at hok
                exact Except.noConfusion hok
              | module rm =>
                simp only [h3] at hok
                cases h4 : alookup rm repl with
                | none =>
                  simp only [h4] at hok
                  exact Except.noConfusion hok
                | some irepl =>
                  simp only [h4] at hok
                  cases h5 : alookup portname irepl with
                  | none =>
                    simp only [h5] at hok
                    exact Except.noConfusion hok
                  | some iflat =>
                    simp only [h5] at hok
                    cases h6 : connAddLoop iflat iid flatsigs h with
                    | error e =>
                      simp only [h6] at hok
                      exact Except.noConfusion hok
                    | ok hh1 =>
                      simp only [h6] at hok
                      rw [ih _ _ hok]
                      rw [updInst_sigs]
                      exact connAddLoop_sigs iflat iid _ _ _ h6
          · simp only [hfe, if_false, ite_false] at hok
            exact ih _ _ hok

theorem rewriteConnsLoop_sigs (repl : List (ModId × List (Name × FlatIntf))) (fid : IntfId)
    (flatsigs : List (Name × SigId)) :
    ∀ l h h', rewriteConnsLoop repl fid flatsigs l h = .ok h' → h'.sigs = h.sigs := by
  intro l
  induction l with
  | nil =>
    intro h h' hok
    rw [rewriteConnsLoop] at hok
    cases hok
    rfl
  | cons pr rest ih =>
    intro h h' hok
    obtain ⟨nm, iid⟩ := pr
    rw [rewriteConnsLoop] at hok
    cases h1 : alookup iid h.insts with
    | none =>
      simp only [h1] at hok
      exact Except.noConfusion hok
    | some inst =>
      simp only [h1] at hok
      cases h2 : rewriteConnsForInst repl fid flatsigs iid (akeys inst.conns) h with
      | error e =>
        simp only [h2] at hok
        exact Except.noConfusion hok
      | ok hh1 =>
        simp only [h2] at hok
        rw [ih _ _ hok]
        exact rewriteConnsForInst_sigs repl fid flatsigs iid _ _ _ h2

theorem replacePortrefConns_sigs (pref : PortRef) (fsid : SigId) :
    ∀ l h, (replacePortrefConns pref fsid l h).sigs = h.sigs := by
  intro l
  induction l with
  | nil => intro h; rfl
  | cons pr rest ih =>
    intro h
    obtain ⟨nm, iid⟩ := pr
    rw [replacePortrefConns]
    rw [ih]
    simp

theorem rewritePortrefs_sigs (flatsigs : List (Name × SigId)) (mid : ModId) :
    ∀ l h h', rewritePortrefs flatsigs mid l h = .ok h' → h'.sigs = h.sigs := by
  intro l
  induction l with
  | nil =>
    intro h h' hok
    rw [rewritePortrefs] at hok
    cases hok
    rfl
  | cons pr rest ih =>
    intro h h' hok
    obtain ⟨nm, pref⟩ := pr
    rw [rewritePortrefs] at hok
    cases h1 : alookup pref.portname flatsigs with
    | none =>
      simp only [h1] at hok
      exact Except.noConfusion hok
    | some fsid =>
      simp only [h1] at hok
      cases h2 : alookup mid h.mods with
      | none =>
        simp only [h2] at hok
        exact Except.noConfusion hok
      | some m =>
        simp only [h2] at hok
        rw [ih _ _ hok]
        exact replacePortrefConns_sigs pref fsid m.instances h

/-! ## Claim C3 -/

/-- C3: for every InterfaceInstance flattened by the bundle-flattening
pass, each resulting scalar Signal has visibility PORT if and only if the
bundle's port flag was set; when the bundle is a port, the signal's
direction is OUTPUT if the bundle's role equals the signal's `src` tag,
INPUT if it (differs from `src` and) equals the `dest` tag, and NONE
otherwise, including when the bundle has no role; when the bundle is not a
port, the signal gets visibility INTERNAL and direction NONE. -/
theorem flatten_signal_vis_dir (fuel : Nat) (repl : List (ModId × List (Name × FlatIntf)))
    (mid : ModId) (fid : IntfId) (h : Heap) (intf : IntfInst) (h1 : Heap) (flat : FlatIntf)
    (hfin : Heap) (flatout : FlatIntf)
    (hintf : alookup fid h.intfs = some intf)
    (hflat : flattenIntf fuel intf.name intf.of h = .ok (h1, flat))
    (hone : flattenOne fuel repl mid fid h = .ok (hfin, flatout)) :
    flatout = flat ∧
    ∀ pr ∈ flat.signals, ∃ sg, alookup pr.2 hfin.sigs = some sg ∧ FlatVisDirOk intf sg := by
  rw [flattenOne] at hone
  simp only [hintf, hflat] at hone
  cases hassign : flatSigAssign mid intf flat.signals h1 with
  | error e =>
    simp only [hassign] at hone
    exact Except.noConfusion hone
  | ok h2 =>
    simp only [hassign] at hone
    cases hm : alookup mid h2.mods with
    | none =>
      simp only [hm] at hone
      exact Except.noConfusion hone
    | some m =>
      simp only [hm] at hone
      cases hrw : rewriteConnsLoop repl fid flat.signals m.instances h2 with
      | error e =>
        simp only [hrw] at hone
        exact Except.noConfusion hone
      | ok h3 =>
        simp only [hrw] at hone
        cases hpf : rewritePortrefs flat.signals mid intf.portrefs h3 with
        | error e =>
          simp only [hpf] at hone
          exact Except.noConfusion hone
        | ok h4 =>
          simp only [hpf] at hone
          have h9 : ((h4, flat) : Heap × FlatIntf) = (hfin, flatout) := Except.ok.inj hone
          have hfe : h4 = hfin := congrArg Prod.fst h9
          have ffe : flat = flatout := congrArg Prod.snd h9
          subst hfe
          subst ffe
          have hnd : (flat.signals.map Prod.snd).Nodup :=
            ((flatten_ids fuel).1 _ _ _ _ _ hflat).2.2
          have hsets := flatSigAssign_sets mid intf flat.signals h1 h2 hassign hnd
          have hs3 : h3.sigs = h2.sigs := rewriteConnsLoop_sigs repl fid flat.signals _ _ _ hrw
          have hs4 : h4.sigs = h3.sigs := rewritePortrefs_sigs flat.signals mid _ _ _ hpf
          refine ⟨rfl, ?_⟩
          intro pr hpr
          obtain ⟨sg, hsg, hok⟩ := hsets pr hpr
          exact ⟨sg, by rw [hs4, hs3]; exact hsg, hok⟩

/-- Concrete data for the C3 witness: a two-signal source/sink interface
`Diff`, instantiated as a port with the source role (spec scenario 5). -/
def diffC3 : Interface := .mk "Diff"
  [{ name := "p", vis := .INTERNAL, direction := .NONE, src := some 1, dest := some 2 },
   { name := "n", vis := .INTERNAL, direction := .NONE, src := some 1, dest := some 2 }] []

def ioC3 : IntfInst :=
  { name := "io", of := diffC3, port := true, role := some 1, portrefs := [],
    elaborated := false }

def heapC3 : Heap :=
  { mods := [(0, { name := some "M", ports := [], signals := [], instances := [],
                   interfaces := [], ns := [] })]
    sigs := [], intfs := [(5, ioC3)], insts := [], calls := [], fresh := 10 }

def heapC3mid : Heap :=
  match flattenIntf 20 ioC3.name ioC3.of heapC3 with
  | .ok (h, _) => h
  | .error _ => heapC3

def flatC3 : FlatIntf :=
  match flattenIntf 20 ioC3.name ioC3.of heapC3 with
  | .ok (_, f) => f
  | .error _ => ⟨"", .mk "" [] [], []⟩

def heapC3res : Heap :=
  match flattenOne 20 [] 0 5 heapC3 with
  | .ok (h, _) => h
  | .error _ => heapC3

def flatC3out : FlatIntf :=
  match flattenOne 20 [] 0 5 heapC3 with
  | .ok (_, f) => f
  | .error _ => ⟨"", .mk "" [] [], []⟩

theorem flatten_signal_vis_dir_witness :
    flatC3out = flatC3 ∧
    ∀ pr ∈ flatC3.signals, ∃ sg, alookup pr.2 heapC3res.sigs = some sg ∧ FlatVisDirOk ioC3 sg :=
  flatten_signal_vis_dir 20 [] 0 5 heapC3 ioC3 heapC3mid flatC3 heapC3res flatC3out rfl rfl rfl

/-! ## The `GeneratorElaborator` pass (elab.py lines 120-222) -/

/-- What a generator function returns: a Module, a further GeneratorCall
(to be unwound), or anything else (a fatal type error). -/
inductive GenRet where
  | mod (m : ModId)
  | call (c : CallId)
  | bad

/-- The environment of user generator functions.  A function takes its
argument and the current IR heap and returns the (possibly extended) heap
together with its return value; the elaborator's own tables are not
accessible to it. -/
structure Env where
  gens : GenId → Generator
  funcs : GenId → Arg → Heap → Heap × GenRet

/-- Modelled from the spec: `params._unique_name` (params.py is not in
src/): a deterministic, collision-resistant encoding of the argument. -/
def uniqueName (a : Arg) : String := toString a

/-- State of the `GeneratorElaborator`: the heap, the value-keyed
GeneratorCall memo (`self.generator_calls`), the identity-keyed module memo
(`self.modules`), and the ghost work log. -/
structure GenSt where
  heap : Heap
  genCache : List ((GenId × Arg) × ModId)
  modCache : List ModId
  log : List ModId

/-- Traversal tasks of the generator elaborator. -/
inductive GTask where
  | gcall (c : CallId)
  | unwind (r : GenRet)
  | module (m : ModId)
  | insts (l : List (Name × InstId))
  | intfs (l : List (Name × IntfId))
  | inst (i : InstId)

/-- The `GeneratorElaborator` pass as a fueled dispatcher.
`gcall` is `elaborate_generator_call` (lines 141-181): consult the
value-keyed cache, else run the generator function, unwind chained
GeneratorCalls, record the result on the call and in the cache, name the
Module (appending `"(" + unique_name(arg) + ")"`), and elaborate it.
`module` is `elaborate_module` (lines 183-203) with its identity-keyed
cache; `inst` is `elaborate_instance` (lines 205-222), dispatching on the
instance's `of` target. -/
def geStep (env : Env) : Nat → GTask → GenSt → Except Err (Option ModId × GenSt)
  | 0, _, _ => .error .outOfFuel
  | fuel + 1, .gcall c, s =>
    match alookup c s.heap.calls with
    | none => .error (.runtimeError "missing GeneratorCall")
    | some r =>
      match alookup (r.gen, r.arg) s.genCache with
      | some m =>
        .ok (some m, { s with heap := s.heap.updCall c (fun q => { q with result := some m }) })
      | none =>
        match geStep env fuel (.unwind (env.funcs r.gen r.arg s.heap).2)
            { s with heap := (env.funcs r.gen r.arg s.heap).1 } with
        | .error e => .error e
        | .ok (none, _) => .error (.typeError "Generator returned non-Module")
        | .ok (some m, s2) =>
          let s3 : GenSt := { s2 with
            heap := s2.heap.updCall c (fun q => { q with result := some m }),
            genCache := ((r.gen, r.arg), m) :: s2.genCache }
          let s4 : GenSt := { s3 with heap := s3.heap.updMod m (fun mm => { mm with name := some ((mm.name.getD (env.gens r.gen).fname) ++ "(" ++ uniqueName r.arg ++ ")") }) }
          geStep env fuel (.module m) s4
  | fuel + 1, .unwind ret, s =>
    match ret with
    | .call c' => geStep env fuel (.gcall c') s
    | .mod m =>
      match alookup m s.heap.mods with
      | some _ => .ok (some m, s)
      | none => .error (.typeError "Generator returned non-Module")
    | .bad => .error (.typeError "Generator returned non-Module")
  | fuel + 1, .module mid, s =>
    if mid ∈ s.modCache then .ok (some mid, s)
    else
      match alookup mid s.heap.mods with
      | none => .error (.runtimeError "missing Module")
      | some m =>
        match m.name with
        | none => .error (.runtimeError "Anonymous Module cannot be elaborated")
        | some nm =>
          if nm = "" then .error (.runtimeError "Anonymous Module cannot be elaborated")
          else
            match geStep env fuel (.insts m.instances) { s with log := s.log ++ [mid] } with
            | .error e => .error e
            | .ok (_, s1) =>
              match geStep env fuel (.intfs m.interfaces) s1 with
              | .error e => .error e
              | .ok (_, s2) => .ok (some mid, { s2 with modCache := s2.modCache ++ [mid] })
  | _ + 1, .insts [], s => .ok (none, s)
  | fuel + 1, .insts (p :: rest), s =>
    match geStep env fuel (.inst p.2) s with
    | .error e => .error e
    | .ok (_, s1) => geStep env fuel (.insts rest) s1
  | _ + 1, .intfs [], s => .ok (none, s)
  | fuel + 1, .intfs (p :: rest), s =>
    geStep env fuel (.intfs rest)
      { s with heap := s.heap.updIntf p.2 (fun r => { r with elaborated := true }) }
  | fuel + 1, .inst iid, s =>
    let s0 : GenSt :=
      { s with heap := s.heap.updInst iid (fun i => { i with elaborated := true }) }
    match alookup iid s0.heap.insts with
    | none => .error (.runtimeError "missing Instance")
    | some inst =>
      match inst.of with
      | .gencall c => geStep env fuel (.gcall c) s0
      | .module m => geStep env fuel (.module m) s0
      | .prim => .ok (none, s0)
      | .ext => .ok (none, s0)

/-! ## Lemmas about `updCall` and `updIntf` -/

@[simp] theorem updCall_mods (h : Heap) (c : CallId) (f : GenCallRec → GenCallRec) :
    (h.updCall c f).mods = h.mods := by
  unfold Heap.updCall
  split <;> rfl

@[simp] theorem updCall_sigs (h : Heap) (c : CallId) (f : GenCallRec → GenCallRec) :
    (h.updCall c f).sigs = h.sigs := by
  unfold Heap.updCall
  split <;> rfl

@[simp] theorem updCall_intfs (h : Heap) (c : CallId) (f : GenCallRec → GenCallRec) :
    (h.updCall c f).intfs = h.intfs := by
  unfold Heap.updCall
  split <;> rfl

@[simp] theorem updCall_insts (h : Heap) (c : CallId) (f : GenCallRec → GenCallRec) :
    (h.updCall c f).insts = h.insts := by
  unfold Heap.updCall
  split <;> rfl

@[simp] theorem updCall_fresh (h : Heap) (c : CallId) (f : GenCallRec → GenCallRec) :
    (h.updCall c f).fresh = h.fresh := by
  unfold Heap.updCall
  split <;> rfl

theorem alookup_updCall_self (h : Heap) (c : CallId) (f : GenCallRec → GenCallRec) :
    alookup c (h.updCall c f).calls = (alookup c h.calls).map f := by
  unfold Heap.updCall
  cases hl : alookup c h.calls with
  | none => simp [hl]
  | some r => simp [hl, alookup_aupd_self]

theorem alookup_updCall_other (h : Heap) {c j : CallId} (hne : c ≠ j)
    (f : GenCallRec → GenCallRec) :
    alookup c (h.updCall j f).calls = alookup c h.calls := by
  unfold Heap.updCall
  cases hl : alookup j h.calls with
  | none => simp [hl]
  | some r => simp [hl, alookup_aupd_ne hne]

@[simp] theorem updIntf_mods (h : Heap) (i : IntfId) (f : IntfInst → IntfInst) :
    (h.updIntf i f).mods = h.mods := by
  unfold Heap.updIntf
  split <;> rfl

@[simp] theorem updIntf_sigs (h : Heap) (i : IntfId) (f : IntfInst → IntfInst) :
    (h.updIntf i f).sigs = h.sigs := by
  unfold Heap.updIntf
  split <;> rfl

@[simp] theorem updIntf_insts (h : Heap) (i : IntfId) (f : IntfInst → IntfInst) :
    (h.updIntf i f).insts = h.insts := by
  unfold Heap.updIntf
  split <;> rfl

@[simp] theorem updIntf_calls (h : Heap) (i : IntfId) (f : IntfInst → IntfInst) :
    (h.updIntf i f).calls = h.calls := by
  unfold Heap.updIntf
  split <;> rfl

@[simp] theorem updIntf_fresh (h : Heap) (i : IntfId) (f : IntfInst → IntfInst) :
    (h.updIntf i f).fresh = h.fresh := by
  unfold Heap.updIntf
  split <;> rfl

/-! ## Claim C2: generator-call memoization -/

/-- The invariant carried through the generator elaborator for one
memoized call: the value key is in the cache with result `m1`, and the
GeneratorCall object's `result` field agrees. -/
def CacheConsistent (c1 : CallId) (k : GenId × Arg) (m1 : ModId) (s : GenSt) : Prop :=
  alookup k s.genCache = some m1 ∧
  ∃ q, alookup c1 s.heap.calls = some q ∧ (q.gen, q.arg) = k ∧ q.result = some m1

/-- Well-behavedness of user generator functions: they may read the heap
and allocate, but do not mutate existing GeneratorCall objects (in Python
they have no handle on the elaborator's tables, and mutating foreign
`GeneratorCall.result` fields from inside a generator is out of scope). -/
def FuncsPreserveCalls (env : Env) : Prop :=
  ∀ g a h c r, alookup c h.calls = some r → alookup c (env.funcs g a h).1.calls = some r

theorem keys_updCall (h : Heap) (c : CallId) (f : GenCallRec → GenCallRec)
    (hkeys : ∀ q, (f q).gen = q.gen ∧ (f q).arg = q.arg) :
    ∀ cq r, alookup cq h.calls = some r →
      ∃ r', alookup cq (h.updCall c f).calls = some r' ∧ r'.gen = r.gen ∧ r'.arg = r.arg := by
  intro cq r hq
  by_cases hcc : cq = c
  · subst hcc
    rw [alookup_updCall_self, hq]
    exact ⟨f r, rfl, (hkeys r).1, (hkeys r).2⟩
  · rw [alookup_updCall_other _ hcc]
    exact ⟨r, hq, rfl, rfl⟩

/-- The generator elaborator only ever writes `result` fields of
GeneratorCall objects: their `gen` and `arg` keys are stable. -/
theorem geStep_call_keys (env : Env) (hf : FuncsPreserveCalls env) :
    ∀ (fuel : Nat) (t : GTask) (s : GenSt) (v : Option ModId) (s' : GenSt),
      geStep env fuel t s = .ok (v, s') →
      ∀ c r, alookup c s.heap.calls = some r →
        ∃ r', alookup c s'.heap.calls = some r' ∧ r'.gen = r.gen ∧ r'.arg = r.arg := by
  intro fuel
  induction fuel with
  | zero =>
    intro t s v s' hstep
    rw [geStep] at hstep
    exact Except.noConfusion hstep
  | succ fuel ih =>
    intro t s v s' hstep cq rq hq
    cases t with
    | gcall c =>
      rw [geStep] at hstep
      cases hc : alookup c s.heap.calls with
      | none =>
        simp only [hc] at hstep
        exact Except.noConfusion hstep
      | some r =>
        simp only [hc] at hstep
        cases hk : alookup (r.gen, r.arg) s.genCache with
        | some m =>
          simp only [hk] at hstep
          have h9 := Except.ok.inj hstep
          have hs' : s' = { s with
            heap := s.heap.updCall c (fun q => { q with result := some m }) } :=
            (congrArg Prod.snd h9).symm
          subst hs'
          exact keys_updCall s.heap c (fun q => { q with result := some m }) (fun q => ⟨rfl, rfl⟩) cq rq hq
        | none =>
          simp only [hk] at hstep
          cases hun : geStep env fuel (.unwind (env.funcs r.gen r.arg s.heap).2)
              { s with heap := (env.funcs r.gen r.arg s.heap).1 } with
          | error e =>
            simp only [hun] at hstep
            exact Except.noConfusion hstep
          | ok pr =>
            obtain ⟨vm, s2⟩ := pr
            simp only [hun] at hstep
            cases vm with
            | none =>
              simp only [] at hstep
              exact Except.noConfusion hstep
            | some m =>
              simp only [] at hstep
              have hq1 : alookup cq (env.funcs r.gen r.arg s.heap).1.calls = some rq :=
                hf r.gen r.arg s.heap cq rq hq
              obtain ⟨r2, hr2, hr2g, hr2a⟩ := ih _ _ _ _ hun cq rq hq1
              obtain ⟨r3, hr3, hr3g, hr3a⟩ :=
                keys_updCall s2.heap c (fun q => { q with result := some m })
                  (fun q => ⟨rfl, rfl⟩) cq r2 hr2
              have hr3' : alookup cq ((s2.heap.updCall c (fun q => { q with result := some m })).updMod m (fun mm => { mm with name := some ((mm.name.getD (env.gens r.gen).fname) ++ "(" ++ uniqueName r.arg ++ ")") })).calls = some r3 := by
                rw [updMod_calls]
                exact hr3
              obtain ⟨r4, hr4, hr4g, hr4a⟩ := ih _ _ _ _ hstep cq r3 hr3'
              exact ⟨r4, hr4, by rw [hr4g, hr3g, hr2g], by rw [hr4a, hr3a, hr2a]⟩
    | unwind ret =>
      cases ret with
      | call c' =>
        rw [geStep] at hstep
        exact ih _ _ _ _ hstep cq rq hq
      | mod m =>
        rw [geStep] at hstep
        cases hm : alookup m s.heap.mods with
        | none =>
          simp only [hm] at hstep
          exact Except.noConfusion hstep
        | some mm =>
          simp only [hm] at hstep
          have h9 := Except.ok.inj hstep
          have hs' : s' = s := (congrArg Prod.snd h9).symm
          subst hs'
          exact ⟨rq, hq, rfl, rfl⟩
      | bad =>
        rw [geStep] at hstep
        exact Except.noConfusion hstep
    | module mid =>
      rw [geStep] at hstep
      by_cases hmem : mid ∈ s.modCache
      · simp only [hmem, if_pos, ite_true] at hstep
        have h9 := Except.ok.inj hstep
        have hs' : s' = s := (congrArg Prod.snd h9).symm
        subst hs'
        exact ⟨rq, hq, rfl, rfl⟩
      · simp only [hmem, if_neg, ite_false] at hstep
        cases hm : alookup mid s.heap.mods with
        | none =>
          simp only [hm] at hstep
          exact Except.noConfusion hstep
        | some m =>
          simp only [hm] at hstep
          cases hnm : m.name with
          | none =>
            simp only [hnm] at hstep
            exact Except.noConfusion hstep
          | some nm =>
            simp only [hnm] at hstep
            by_cases hne : nm = ""
            · simp only [hne, if_pos, ite_true] at hstep
              exact Except.noConfusion hstep
            · simp only [hne, if_neg, ite_false] at hstep
              cases hin : geStep env fuel (.insts m.instances)
                  { s with log := s.log ++ [mid] } with
              | error e =>
                simp only [hin] at hstep
                exact Except.noConfusion hstep
              | ok pr1 =>
                obtain ⟨v1, s1⟩ := pr1
                simp only [hin] at hstep
                cases hif : geStep env fuel (.intfs m.interfaces) s1 with
                | error e =>
                  simp only [hif] at hstep
                  exact Except.noConfusion hstep
                | ok pr2 =>
                  obtain ⟨v2, s2⟩ := pr2
                  simp only [hif] at hstep
                  have h9 := Except.ok.inj hstep
                  have hs' : s' = { s2 with modCache := s2.modCache ++ [mid] } :=
                    (congrArg Prod.snd h9).symm
                  subst hs'
                  obtain ⟨r1, hr1, hr1g, hr1a⟩ := ih _ _ _ _ hin cq rq hq
                  obtain ⟨r2, hr2, hr2g, hr2a⟩ := ih _ _ _ _ hif cq r1 hr1
                  exact ⟨r2, hr2, by rw [hr2g, hr1g], by rw [hr2a, hr1a]⟩
    | insts l =>
      cases l with
      | nil =>
        rw [geStep] at hstep
        have h9 := Except.ok.inj hstep
        have hs' : s' = s := (congrArg Prod.snd h9).symm
        subst hs'
        exact ⟨rq, hq, rfl, rfl⟩
      | cons p rest =>
        rw [geStep] at hstep
        cases h1 : geStep env fuel (.inst p.2) s with
        | error e =>
          simp only [h1] at hstep
          exact Except.noConfusion hstep
        | ok pr1 =>
          obtain ⟨v1, s1⟩ := pr1
          simp only [h1] at hstep
          obtain ⟨r1, hr1, hr1g, hr1a⟩ := ih _ _ _ _ h1 cq rq hq
          obtain ⟨r2, hr2, hr2g, hr2a⟩ := ih _ _ _ _ hstep cq r1 hr1
          exact ⟨r2, hr2, by rw [hr2g, hr1g], by rw [hr2a, hr1a]⟩
    | intfs l =>
      cases l with
      | nil =>
        rw [geStep] at hstep
        have h9 := Except.ok.inj hstep
        have hs' : s' = s := (congrArg Prod.snd h9).symm
        subst hs'
        exact ⟨rq, hq, rfl, rfl⟩
      | cons p rest =>
        rw [geStep] at hstep
        refine ih _ _ _ _ hstep cq rq ?_
        show alookup cq (s.heap.updIntf _ _).calls = some rq
        rw [updIntf_calls]
        exact hq
    | inst iid =>
      rw [geStep] at hstep
      have hq0 : alookup cq (s.heap.updInst iid (fun i => { i with elaborated := true })).calls = some rq := by
        rw [updInst_calls]
        exact hq
      cases hi : alookup iid (s.heap.updInst iid (fun i => { i with elaborated := true })).insts with
      | none =>
        simp only [hi] at hstep
        exact Except.noConfusion hstep
      | some inst =>
        simp only [hi] at hstep
        cases hof : inst.of with
        | gencall c =>
          simp only [hof] at hstep
          exact ih _ _ _ _ hstep cq rq hq0
        | module m =>
          simp only [hof] at hstep
          exact ih _ _ _ _ hstep cq rq hq0
        | prim =>
          simp only [hof] at hstep
          have h9 := Except.ok.inj hstep
          have hs' : s' = _ := (congrArg Prod.snd h9).symm
          subst hs'
          exact ⟨rq, hq0, rfl, rfl⟩
        | ext =>
          simp only [hof] at hstep
          have h9 := Except.ok.inj hstep
          have hs' : s' = _ := (congrArg Prod.snd h9).symm
          subst hs'
          exact ⟨rq, hq0, rfl, rfl⟩

theorem geStep_cache_inv (env : Env) (hf : FuncsPreserveCalls env) (c1 : CallId)
    (k : GenId × Arg) (m1 : ModId) :
    ∀ (fuel : Nat) (t : GTask) (s : GenSt) (v : Option ModId) (s' : GenSt),
      geStep env fuel t s = .ok (v, s') →
      CacheConsistent c1 k m1 s → CacheConsistent c1 k m1 s' := by
  intro fuel
  induction fuel with
  | zero =>
    intro t s v s' hstep
    rw [geStep] at hstep
    exact Except.noConfusion hstep
  | succ fuel ih =>
    intro t s v s' hstep hP
    cases t with
    | gcall c =>
      rw [geStep] at hstep
      cases hc : alookup c s.heap.calls with
      | none =>
        simp only [hc] at hstep
        exact Except.noConfusion hstep
      | some r =>
        simp only [hc] at hstep
        cases hk : alookup (r.gen, r.arg) s.genCache with
        | some m =>
          simp only [hk] at hstep
          have h9 := Except.ok.inj hstep
          have hs' : s' = { s with
            heap := s.heap.updCall c (fun q => { q with result := some m }) } :=
            (congrArg Prod.snd h9).symm
          subst hs'
          obtain ⟨hP1, q, hq1, hq2, hq3⟩ := hP
          refine ⟨hP1, ?_⟩
          by_cases hcc : c1 = c
          · subst hcc
            rw [hc] at hq1
            obtain rfl : r = q := Option.some.inj hq1
            have hkk : k = (r.gen, r.arg) := hq2.symm
            subst hkk
            rw [hk] at hP1
            obtain rfl : m = m1 := Option.some.inj hP1
            refine ⟨{ r with result := some m }, ?_, rfl, rfl⟩
            show alookup c1 (s.heap.updCall c1 _).calls = _
            rw [alookup_updCall_self, hc]
            rfl
          · refine ⟨q, ?_, hq2, hq3⟩
            show alookup c1 (s.heap.updCall c _).calls = some q
            rw [alookup_updCall_other _ hcc]
            exact hq1
        | none =>
          simp only [hk] at hstep
          cases hun : geStep env fuel (.unwind (env.funcs r.gen r.arg s.heap).2)
              { s with heap := (env.funcs r.gen r.arg s.heap).1 } with
          | error e =>
            simp only [hun] at hstep
            exact Except.noConfusion hstep
          | ok pr =>
            obtain ⟨vm, s2⟩ := pr
            simp only [hun] at hstep
            cases vm with
            | none =>
              simp only [] at hstep
              exact Except.noConfusion hstep
            | some m =>
              simp only [] at hstep
              have hP0 : CacheConsistent c1 k m1
                  { s with heap := (env.funcs r.gen r.arg s.heap).1 } := by
                obtain ⟨hP1, q, hq1, hq2, hq3⟩ := hP
                exact ⟨hP1, q, hf r.gen r.arg s.heap c1 q hq1, hq2, hq3⟩
              have hP2 := ih _ _ _ _ hun hP0
              obtain ⟨hP1, q, hq1, hq2, hq3⟩ := hP2
              have hkne : k ≠ (r.gen, r.arg) := by
                intro hh
                have h00 := hP.1
                rw [hh] at h00
                rw [h00] at hk
                exact Option.noConfusion hk
              have hcne : c1 ≠ c := by
                intro hh
                subst hh
                have hq0 : alookup c1 (env.funcs r.gen r.arg s.heap).1.calls = some r :=
                  hf r.gen r.arg s.heap c1 r hc
                obtain ⟨r2, hr2, hr2g, hr2a⟩ :=
                  geStep_call_keys env hf fuel _ _ _ _ hun c1 r hq0
                rw [hq1] at hr2
                have hqr : q = r2 := Option.some.inj hr2
                apply hkne
                rw [← hq2, hqr, hr2g, hr2a]
              have hP3 : CacheConsistent c1 k m1 { s2 with
                  heap := s2.heap.updCall c (fun q => { q with result := some m }),
                  genCache := ((r.gen, r.arg), m) :: s2.genCache } := by
                refine ⟨?_, q, ?_, hq2, hq3⟩
                · show alookup k (((r.gen, r.arg), m) :: s2.genCache) = some m1
                  rw [alookup_cons, if_neg hkne]
                  exact hP1
                · show alookup c1 (s2.heap.updCall c _).calls = some q
                  rw [alookup_updCall_other _ hcne]
                  exact hq1
              have hP4 : CacheConsistent c1 k m1 { { s2 with
                  heap := s2.heap.updCall c (fun q => { q with result := some m }),
                  genCache := ((r.gen, r.arg), m) :: s2.genCache } with
                  heap := ({ s2 with
                    heap := s2.heap.updCall c (fun q => { q with result := some m }),
                    genCache := ((r.gen, r.arg), m) :: s2.genCache } : GenSt).heap.updMod m
                    (fun mm => { mm with name := some ((mm.name.getD (env.gens r.gen).fname) ++ "(" ++ uniqueName r.arg ++ ")") }) } := by
                obtain ⟨hQ1, q', hq1', hq2', hq3'⟩ := hP3
                refine ⟨hQ1, q', ?_, hq2', hq3'⟩
                show alookup c1 (Heap.updMod _ _ _).calls = some q'
                rw [updMod_calls]
                exact hq1'
              exact ih _ _ _ _ hstep hP4
    | unwind ret =>
      cases ret with
      | call c' =>
        rw [geStep] at hstep
        exact ih _ _ _ _ hstep hP
      | mod m =>
        rw [geStep] at hstep
        cases hm : alookup m s.heap.mods with
        | none =>
          simp only [hm] at hstep
          exact Except.noConfusion hstep
        | some mm =>
          simp only [hm] at hstep
          have h9 := Except.ok.inj hstep
          have hs' : s' = s := (congrArg Prod.snd h9).symm
          subst hs'
          exact hP
      | bad =>
        rw [geStep] at hstep
        exact Except.noConfusion hstep
    | module mid =>
      rw [geStep] at hstep
      by_cases hmem : mid ∈ s.modCache
      · simp only [hmem, if_pos, ite_true] at hstep
        have h9 := Except.ok.inj hstep
        have hs' : s' = s := (congrArg Prod.snd h9).symm
        subst hs'
        exact hP
      · simp only [hmem, if_neg, ite_false] at hstep
        cases hm : alookup mid s.heap.mods with
        | none =>
          simp only [hm] at hstep
          exact Except.noConfusion hstep
        | some m =>
          simp only [hm] at hstep
          cases hnm : m.name with
          | none =>
            simp only [hnm] at hstep
            exact Except.noConfusion hstep
          | some nm =>
            simp only [hnm] at hstep
            by_cases hne : nm = ""
            · simp only [hne, if_pos, ite_true] at hstep
              exact Except.noConfusion hstep
            · simp only [hne, if_neg, ite_false] at hstep
              cases hin : geStep env fuel (.insts m.instances)
                  { s with log := s.log ++ [mid] } with
              | error e =>
                simp only [hin] at hstep
                exact Except.noConfusion hstep
              | ok pr1 =>
                obtain ⟨v1, s1⟩ := pr1
                simp only [hin] at hstep
                cases hif : geStep env fuel (.intfs m.interfaces) s1 with
                | error e =>
                  simp only [hif] at hstep
                  exact Except.noConfusion hstep
                | ok pr2 =>
                  obtain ⟨v2, s2⟩ := pr2
                  simp only [hif] at hstep
                  have h9 := Except.ok.inj hstep
                  have hs' : s' = { s2 with modCache := s2.modCache ++ [mid] } :=
                    (congrArg Prod.snd h9).symm
                  subst hs'
                  have hQ1 := ih _ _ _ _ hin ⟨hP.1, hP.2⟩
                  have hQ2 := ih _ _ _ _ hif hQ1
                  exact ⟨hQ2.1, hQ2.2⟩
    | insts l =>
      cases l with
      | nil =>
        rw [geStep] at hstep
        have h9 := Except.ok.inj hstep
        have hs' : s' = s := (congrArg Prod.snd h9).symm
        subst hs'
        exact hP
      | cons p rest =>
        rw [geStep] at hstep
        cases h1 : geStep env fuel (.inst p.2) s with
        | error e =>
          simp only [h1] at hstep
          exact Except.noConfusion hstep
        | ok pr1 =>
          obtain ⟨v1, s1⟩ := pr1
          simp only [h1] at hstep
          exact ih _ _ _ _ hstep (ih _ _ _ _ h1 hP)
    | intfs l =>
      cases l with
      | nil =>
        rw [geStep] at hstep
        have h9 := Except.ok.inj hstep
        have hs' : s' = s := (congrArg Prod.snd h9).symm
        subst hs'
        exact hP
      | cons p rest =>
        rw [geStep] at hstep
        refine ih _ _ _ _ hstep ?_
        obtain ⟨hP1, q, hq1, hq2, hq3⟩ := hP
        refine ⟨hP1, q, ?_, hq2, hq3⟩
        show alookup c1 (s.heap.updIntf _ _).calls = some q
        rw [updIntf_calls]
        exact hq1
    | inst iid =>
      rw [geStep] at hstep
      have hP0 : CacheConsistent c1 k m1
          { s with heap := s.heap.updInst iid (fun i => { i with elaborated := true }) } := by
        obtain ⟨hP1, q, hq1, hq2, hq3⟩ := hP
        refine ⟨hP1, q, ?_, hq2, hq3⟩
        show alookup c1 (s.heap.updInst _ _).calls = some q
        rw [updInst_calls]
        exact hq1
      cases hi : alookup iid (s.heap.updInst iid (fun i => { i with elaborated := true })).insts with
      | none =>
        simp only [hi] at hstep
        exact Except.noConfusion hstep
      | some inst =>
        simp only [hi] at hstep
        cases hof : inst.of with
        | gencall c =>
          simp only [hof] at hstep
          exact ih _ _ _ _ hstep hP0
        | module m =>
          simp only [hof] at hstep
          exact ih _ _ _ _ hstep hP0
        | prim =>
          simp only [hof] at hstep
          have h9 := Except.ok.inj hstep
          have hs' : s' = _ := (congrArg Prod.snd h9).symm
          subst hs'
          exact hP0
        | ext =>
          simp only [hof] at hstep
          have h9 := Except.ok.inj hstep
          have hs' : s' = _ := (congrArg Prod.snd h9).symm
          subst hs'
          exact hP0

/-- `elaborate_module` returns the very Module object it was given. -/
theorem geStep_module_val (env : Env) :
    ∀ (fuel : Nat) (mid : ModId) (s : GenSt) (v : Option ModId) (s' : GenSt),
      geStep env fuel (.module mid) s = .ok (v, s') → v = some mid := by
  intro fuel mid s v s' h
  match fuel with
  | 0 =>
    rw [geStep] at h
    exact Except.noConfusion h
  | f + 1 =>
    rw [geStep] at h
    by_cases hmem : mid ∈ s.modCache
    · simp only [hmem, if_pos, ite_true] at h
      exact (congrArg Prod.fst (Except.ok.inj h)).symm
    · simp only [hmem, if_neg, ite_false] at h
      cases hm : alookup mid s.heap.mods with
      | none =>
        simp only [hm] at h
        exact Except.noConfusion h
      | some m =>
        simp only [hm] at h
        cases hnm : m.name with
        | none =>
          simp only [hnm] at h
          exact Except.noConfusion h
        | some nm =>
          simp only [hnm] at h
          by_cases hne : nm = ""
          · simp only [hne, if_pos, ite_true] at h
            exact Except.noConfusion h
          · simp only [hne, if_neg, ite_false] at h
            cases hin : geStep env f (.insts m.instances) { s with log := s.log ++ [mid] } with
            | error e =>
              simp only [hin] at h
              exact Except.noConfusion h
            | ok pr1 =>
              obtain ⟨v1, s1⟩ := pr1
              simp only [hin] at h
              cases hif : geStep env f (.intfs m.interfaces) s1 with
              | error e =>
                simp only [hif] at h
                exact Except.noConfusion h
              | ok pr2 =>
                obtain ⟨v2, s2⟩ := pr2
                simp only [hif] at h
                exact (congrArg Prod.fst (Except.ok.inj h)).symm

/-- Postcondition of `elaborate_generator_call`: it returns a Module
identity that is recorded both in the value-keyed cache and in the
GeneratorCall's `result` field. -/
theorem geStep_gcall_post (env : Env) (hf : FuncsPreserveCalls env) :
    ∀ (fuel : Nat) (c : CallId) (s : GenSt) (v : Option ModId) (s' : GenSt),
      geStep env fuel (.gcall c) s = .ok (v, s') →
      ∀ r, alookup c s.heap.calls = some r →
        ∃ m, v = some m ∧ CacheConsistent c (r.gen, r.arg) m s' := by
  intro fuel c s v s' hstep r hr
  match fuel with
  | 0 =>
    rw [geStep] at hstep
    exact Except.noConfusion hstep
  | f + 1 =>
    rw [geStep] at hstep
    rw [hr] at hstep
    cases hk : alookup (r.gen, r.arg) s.genCache with
    | some m =>
      simp only [hk] at hstep
      have h9 := Except.ok.inj hstep
      have hv : v = some m := (congrArg Prod.fst h9).symm
      have hs' : s' = { s with
        heap := s.heap.updCall c (fun q => { q with result := some m }) } :=
        (congrArg Prod.snd h9).symm
      subst hs'
      refine ⟨m, hv, hk, { r with result := some m }, ?_, rfl, rfl⟩
      show alookup c (s.heap.updCall c _).calls = _
      rw [alookup_updCall_self, hr]
      rfl
    | none =>
      simp only [hk] at hstep
      cases hun : geStep env f (.unwind (env.funcs r.gen r.arg s.heap).2)
          { s with heap := (env.funcs r.gen r.arg s.heap).1 } with
      | error e =>
        simp only [hun] at hstep
        exact Except.noConfusion hstep
      | ok pr =>
        obtain ⟨vm, s2⟩ := pr
        simp only [hun] at hstep
        cases vm with
        | none =>
          simp only [] at hstep
          exact Except.noConfusion hstep
        | some m =>
          simp only [] at hstep
          have hv : v = some m := geStep_module_val env f m _ v s' hstep
          have hq0 : alookup c (env.funcs r.gen r.arg s.heap).1.calls = some r :=
            hf r.gen r.arg s.heap c r hr
          obtain ⟨r2, hr2, hr2g, hr2a⟩ := geStep_call_keys env hf f _ _ _ _ hun c r hq0
          have hP3 : CacheConsistent c (r.gen, r.arg) m { s2 with
              heap := s2.heap.updCall c (fun q => { q with result := some m }),
              genCache := ((r.gen, r.arg), m) :: s2.genCache } := by
            refine ⟨by simp, { r2 with result := some m }, ?_, ?_, rfl⟩
            · show alookup c (s2.heap.updCall c _).calls = _
              rw [alookup_updCall_self, hr2]
              rfl
            · show (r2.gen, r2.arg) = (r.gen, r.arg)
              rw [hr2g, hr2a]
          have hP4 : CacheConsistent c (r.gen, r.arg) m { { s2 with
              heap := s2.heap.updCall c (fun q => { q with result := some m }),
              genCache := ((r.gen, r.arg), m) :: s2.genCache } with
              heap := ({ s2 with
                heap := s2.heap.updCall c (fun q => { q with result := some m }),
                genCache := ((r.gen, r.arg), m) :: s2.genCache } : GenSt).heap.updMod m
                (fun mm => { mm with name := some ((mm.name.getD (env.gens r.gen).fname) ++ "(" ++ uniqueName r.arg ++ ")") }) } := by
            obtain ⟨hQ1, q', hq1', hq2', hq3'⟩ := hP3
            refine ⟨hQ1, q', ?_, hq2', hq3'⟩
            show alookup c (Heap.updMod _ _ _).calls = some q'
            rw [updMod_calls]
            exact hq1'
          exact ⟨m, hv, geStep_cache_inv env hf c (r.gen, r.arg) m f _ _ _ _ hstep hP4⟩

/-- C2: within a single elaboration run, for every two GeneratorCalls that
are value-equal on (generator identity, argument), elaborating both yields
the identity-same result Module object, and each call's `result` field is
set to that Module.  Generator functions are assumed not to mutate foreign
GeneratorCall objects (`FuncsPreserveCalls`). -/
theorem generator_call_memoization (env : Env) (hf : FuncsPreserveCalls env)
    (f1 f2 : Nat) (c1 c2 : CallId) (s s1 s2 : GenSt) (v1 v2 : Option ModId)
    (r1 r2 : GenCallRec)
    (hr1 : alookup c1 s.heap.calls = some r1)
    (h1 : geStep env f1 (.gcall c1) s = .ok (v1, s1))
    (hr2 : alookup c2 s1.heap.calls = some r2)
    (hkey : (r2.gen, r2.arg) = (r1.gen, r1.arg))
    (h2 : geStep env f2 (.gcall c2) s1 = .ok (v2, s2)) :
    ∃ m, v1 = some m ∧ v2 = some m ∧
      (∃ q1, alookup c1 s2.heap.calls = some q1 ∧ q1.result = some m) ∧
      (∃ q2, alookup c2 s2.heap.calls = some q2 ∧ q2.result = some m) := by
  obtain ⟨m, hv1, hP1⟩ := geStep_gcall_post env hf f1 c1 s v1 s1 h1 r1 hr1
  obtain ⟨m2, hv2, hP2⟩ := geStep_gcall_post env hf f2 c2 s1 v2 s2 h2 r2 hr2
  have hP1' : CacheConsistent c1 (r1.gen, r1.arg) m s2 :=
    geStep_cache_inv env hf c1 (r1.gen, r1.arg) m f2 _ _ _ _ h2 hP1
  have hmm : m2 = m := by
    have ha := hP1'.1
    have hb := hP2.1
    rw [hkey] at hb
    rw [ha] at hb
    exact (Option.some.inj hb).symm
  subst hmm
  obtain ⟨q1, hq1, _, hq1r⟩ := hP1'.2
  obtain ⟨q2, hq2, _, hq2r⟩ := hP2.2
  exact ⟨m2, hv1, hv2, ⟨q1, hq1, hq1r⟩, ⟨q2, hq2, hq2r⟩⟩

/-- Concrete data for the C2 witness: two distinct GeneratorCall objects
with equal (generator, argument), a generator that allocates a fresh
anonymous Module on each invocation. -/
def envC2 : Env :=
  { gens := fun _ => { fname := "g", usecontext := false }
    funcs := fun _ _ h =>
      let al := h.allocMod { name := none, ports := [], signals := [], instances := [],
                             interfaces := [], ns := [] }
      (al.1, .mod al.2) }

theorem envC2_preserves : FuncsPreserveCalls envC2 := by
  intro g a h c r hcr
  exact hcr

def heapC2 : Heap :=
  { mods := [], sigs := [], intfs := [], insts := []
    calls := [(0, { gen := 0, arg := 5, result := none }),
              (1, { gen := 0, arg := 5, result := none })]
    fresh := 10 }

def stC2 : GenSt := ⟨heapC2, [], [], []⟩

def st1C2 : GenSt :=
  match geStep envC2 10 (.gcall 0) stC2 with
  | .ok (_, s) => s
  | .error _ => stC2

def v1C2 : Option ModId :=
  match geStep envC2 10 (.gcall 0) stC2 with
  | .ok (v, _) => v
  | .error _ => none

def st2C2 : GenSt :=
  match geStep envC2 10 (.gcall 1) st1C2 with
  | .ok (_, s) => s
  | .error _ => st1C2

def v2C2 : Option ModId :=
  match geStep envC2 10 (.gcall 1) st1C2 with
  | .ok (v, _) => v
  | .error _ => none

theorem generator_call_memoization_witness :
    ∃ m, v1C2 = some m ∧ v2C2 = some m ∧
      (∃ q1, alookup 0 st2C2.heap.calls = some q1 ∧ q1.result = some m) ∧
      (∃ q2, alookup 1 st2C2.heap.calls = some q2 ∧ q2.result = some m) :=
  generator_call_memoization envC2 envC2_preserves 10 10 0 1 stC2 st1C2 st2C2 v1C2 v2C2
    { gen := 0, arg := 5, result := none } { gen := 0, arg := 5, result := none }
    rfl rfl rfl rfl rfl

/-! ## The `ImplicitInterfaces` pass (elab.py lines 431-517) -/

/-- `Interface.get`: look a name up among an interface definition's scalar
signals and nested interface fields (the latter are InterfaceInstance
values in the source).  Modelled from the spec (interface.py not in src/). -/
inductive IGet where
  | sigdata (s : SigData)
  | nested (nm : Name) (i : Interface)

def Interface.get (i : Interface) (nm : Name) : Option IGet :=
  match i.signals.find? (fun s => s.name == nm) with
  | some s => some (.sigdata s)
  | none =>
    match alookup nm i.interfaces with
    | some n => some (.nested nm n)
    | none => none

/-- `conn.inst._resolved` for a PortRef owner: an Instance resolves per
`Heap.resolvedOf`; an InterfaceInstance resolves to its Interface
definition. -/
inductive ORes where
  | module (m : ModId)
  | intfdef (i : Interface)
  | prim
  | ext

def Heap.ownerResolved (h : Heap) (o : Owner) : Option ORes :=
  match o with
  | .inst i =>
    match alookup i h.insts with
    | none => none
    | some inst =>
      match h.resolvedOf inst with
      | some (.module m) => some (.module m)
      | some .prim => some .prim
      | some .ext => some .ext
      | none => none
  | .intf f =>
    match alookup f h.intfs with
    | none => none
    | some r => some (.intfdef r.of)

/-- The interface-valued-PortRef test of `ImplicitInterfaces`
(elab.py lines 450-458): the connection is a PortRef whose owner resolves
to a Module or Interface, and the referenced port is an InterfaceInstance;
a missing port is a fatal error, a non-(Module, Interface) owner is
skipped. -/
def isIntfPortRef (h : Heap) (r : PortRef) : Except Err Bool :=
  match h.ownerResolved r.owner with
  | some (.module m) =>
    match alookup m h.mods with
    | none => .error (.runtimeError "missing Module")
    | some tm =>
      match tm.get r.portname with
      | none => .error (.runtimeError "port not found")
      | some (.intf _) => .ok true
      | some _ => .ok false
  | some (.intfdef i) =>
    match i.get r.portname with
    | none => .error (.runtimeError "port not found")
    | some (.nested _ _) => .ok true
    | some _ => .ok false
  | _ => .ok false

/-- The inner connection loop building the interface-valued adjacency dict
(lines 448-458). -/
def iiConnLoop (h : Heap) (iid : InstId) :
    List (Name × Conn) → List (PortRef × PortRef) →
    Except Err (List (PortRef × PortRef))
  | [], acc => .ok acc
  | (port, conn) :: rest, acc =>
    match conn with
    | .portref r =>
      match isIntfPortRef h r with
      | .error e => .error e
      | .ok true => iiConnLoop h iid rest (acc ++ [(⟨.inst iid, port⟩, r)])
      | .ok false => iiConnLoop h iid rest acc
    | _ => iiConnLoop h iid rest acc

/-- The outer adjacency loop over instances (lines 448-458). -/
def buildPortconnsII (h : Heap) :
    List (Name × InstId) → List (PortRef × PortRef) →
    Except Err (List (PortRef × PortRef))
  | [], acc => .ok acc
  | p :: rest, acc =>
    match alookup p.2 h.insts with
    | none => .error (.runtimeError "missing Instance")
    | some inst =>
      match iiConnLoop h p.2 inst.conns acc with
      | .error e => .error e
      | .ok acc1 => buildPortconnsII h rest acc1

/-- Sequential processing of the discovered interface nets (line 477). -/
def processNetsII (mid : ModId) : List (List PortRef) → Heap → Except Err Heap
  | [], h => .ok h
  | net :: rest, h =>
    match processNetII mid net h with
    | .error e => .error e
    | .ok h' => processNetsII mid rest h'

/-- The `ImplicitInterfaces` pass (elab.py lines 431-517) as a fueled
dispatcher.  Like `ImplicitSignals` it keeps no per-module memoization. -/
def iiStep : Nat → PassTask → SimpleSt → Except Err (Option ModId × SimpleSt)
  | 0, _, _ => .error .outOfFuel
  | fuel + 1, .module mid, s =>
    match alookup mid s.heap.mods with
    | none => .error (.runtimeError "missing Module")
    | some m =>
      let s0 := { s with log := s.log ++ [mid] }
      match iiStep fuel (.insts m.instances) s0 with
      | .error e => .error e
      | .ok (_, s1) =>
        match alookup mid s1.heap.mods with
        | none => .error (.runtimeError "missing Module")
        | some m1 =>
          match buildPortconnsII s1.heap m1.instances [] with
          | .error e => .error e
          | .ok portconns =>
            match processNetsII mid (buildNets portconns) s1.heap with
            | .error e => .error e
            | .ok h2 => .ok (some mid, { s1 with heap := h2 })
  | _ + 1, .insts [], s => .ok (none, s)
  | fuel + 1, .insts (p :: rest), s =>
    match iiStep fuel (.inst p.2) s with
    | .error e => .error e
    | .ok (_, s1) => iiStep fuel (.insts rest) s1
  | fuel + 1, .inst iid, s =>
    let s0 : SimpleSt :=
      { s with heap := s.heap.updInst iid (fun i => { i with elaborated := true }) }
    match alookup iid s0.heap.insts with
    | none => .error (.runtimeError "missing Instance")
    | some inst =>
      match s0.heap.resolvedOf inst with
      | none => .error (.runtimeError "Error elaborating undefined Instance")
      | some (.module m') => iiStep fuel (.module m') s0
      | some .prim => .ok (none, s0)
      | some .ext => .ok (none, s0)

/-! ## The elaboration pipeline (elab.py lines 541-605) -/

/-- Elaboratable top-level objects (`Elabable`); a bare `Generator` can be
collected by `elab_all` but is rejected by every pass's entry point. -/
inductive Elabable where
  | module (m : ModId)
  | gcall (c : CallId)
  | gen (g : GenId)
  deriving DecidableEq, Repr

/-- `ElabPasses` (elab.py lines 541-550): the enumerated elaborator passes,
in definition order. -/
inductive ElabPass where
  | RUN_GENERATORS
  | IMPLICIT_INTERFACES
  | FLATTEN_INTERFACES
  | IMPLICIT_SIGNALS
  deriving DecidableEq, Repr

/-- Iterating the `ElabPasses` enumeration yields its members in
definition order. -/
def ElabPassesList : List ElabPass :=
  [.RUN_GENERATORS, .IMPLICIT_INTERFACES, .FLATTEN_INTERFACES, .IMPLICIT_SIGNALS]

/-- `passes = passes or ElabPasses` (line 599): `None` and the empty list
are falsy, so both select the default enumeration. -/
def resolvePasses : Option (List ElabPass) → List ElabPass
  | none => ElabPassesList
  | some [] => ElabPassesList
  | some ps => ps

/-- Run one pass: each pass's classmethod `elaborate` builds a fresh pass
object (empty caches) and calls `elaborate_top`.  `GeneratorElaborator`
accepts a Module or GeneratorCall top (lines 131-139); every other pass
accepts only a Module (lines 53-57). -/
def runPass (env : Env) (fuel : Nat) (p : ElabPass) (top : Elabable) (h : Heap) :
    Except Err (ModId × Heap) :=
  match p with
  | .RUN_GENERATORS =>
    match top with
    | .module m =>
      match geStep env fuel (.module m) ⟨h, [], [], []⟩ with
      | .error e => .error e
      | .ok (some r, s') => .ok (r, s'.heap)
      | .ok (none, _) => .error (.typeError "Invalid Elaboration top-level")
    | .gcall c =>
      match geStep env fuel (.gcall c) ⟨h, [], [], []⟩ with
      | .error e => .error e
      | .ok (some r, s') => .ok (r, s'.heap)
      | .ok (none, _) => .error (.typeError "Invalid Elaboration top-level")
    | .gen _ => .error (.typeError "Invalid Elaboration top-level, must be a Module or Generator")
  | .IMPLICIT_INTERFACES =>
    match top with
    | .module m =>
      match iiStep fuel (.module m) ⟨h, []⟩ with
      | .error e => .error e
      | .ok (some r, s') => .ok (r, s'.heap)
      | .ok (none, _) => .error (.typeError "Invalid Elaboration top-level")
    | _ => .error (.typeError "elaboration top must be a Module")
  | .FLATTEN_INTERFACES =>
    match top with
    | .module m =>
      match ifStep fuel (.module m) ⟨h, [], [], []⟩ with
      | .error e => .error e
      | .ok (some r, s') => .ok (r, s'.heap)
      | .ok (none, _) => .error (.typeError "Invalid Elaboration top-level")
    | _ => .error (.typeError "elaboration top must be a Module")
  | .IMPLICIT_SIGNALS =>
    match top with
    | .module m =>
      match isStep fuel (.module m) ⟨h, []⟩ with
      | .error e => .error e
      | .ok (some r, s') => .ok (r, s'.heap)
      | .ok (none, _) => .error (.typeError "Invalid Elaboration top-level")
    | _ => .error (.typeError "elaboration top must be a Module")

/-- The pass loop of `elaborate` (lines 601-605): thread the result of each
pass into the next. -/
def runPasses (env : Env) (fuel : Nat) : List ElabPass → Elabable → Heap →
    Except Err (Elabable × Heap)
  | [], top, h => .ok (top, h)
  | p :: rest, top, h =>
    match runPass env fuel p top h with
    | .error e => .error e
    | .ok (r, h') => runPasses env fuel rest (.module r) h'

/-- `elaborate` (elab.py lines 581-605): expand the default pass list and
run the passes in order. -/
def elaborate (env : Env) (fuel : Nat) (top : Elabable)
    (passes : Option (List ElabPass)) (h : Heap) : Except Err (Elabable × Heap) :=
  runPasses env fuel (resolvePasses passes) top h

/-! ## Claim C10 -/

/-- C10: calling `elaborate` with `passes=[]` does not run zero passes:
the empty list is falsy in Python, so `passes or ElabPasses` replaces it by
the default enumeration, all four default passes run in definition order,
and `elaborate(top, passes=[])` behaves identically to `elaborate(top)`
with `passes` omitted. -/
theorem elaborate_empty_passes_default (env : Env) (fuel : Nat) (top : Elabable) (h : Heap) :
    elaborate env fuel top (some []) h = elaborate env fuel top none h ∧
    resolvePasses (some []) =
      [.RUN_GENERATORS, .IMPLICIT_INTERFACES, .FLATTEN_INTERFACES, .IMPLICIT_SIGNALS] ∧
    resolvePasses (some []) = resolvePasses none :=
  ⟨rfl, rfl, rfl⟩

/-! ## Claim C7 -/

/-- A parent `P` with two instances `a`, `b` of the same shared Module `M`. -/
def heapC7 : Heap :=
  { mods := [(0, { name := some "P", ports := [], signals := [],
                   instances := [("a", 1), ("b", 2)], interfaces := [],
                   ns := [("a", .inst 1), ("b", .inst 2)] }),
             (3, { name := some "M", ports := [], signals := [], instances := [],
                   interfaces := [], ns := [] })]
    sigs := [], intfs := []
    insts := [(1, { name := "a", of := .module 3, conns := [], elaborated := false }),
              (2, { name := "b", of := .module 3, conns := [], elaborated := false })]
    calls := [], fresh := 10 }

/-- C7 (counterexample): the `ImplicitSignals` pass keeps no per-module
memoization: elaborating `P` with two instances of the shared Module `M`
runs the `elaborate_module` body on `M` twice (the work log records each
body entry), refuting "every elaboration pass memoizes its per-module work
keyed by module object identity ... each distinct Module is processed at
most once per pass". -/
theorem implicit_signals_reprocesses_counterexample :
    isStep 10 (.module 0) ⟨heapC7, []⟩ =
      .ok (some 0, ⟨(match isStep 10 (.module 0) ⟨heapC7, []⟩ with
        | .ok (_, st) => st.heap
        | .error _ => heapC7), [0, 3, 3]⟩) ∧
    ([0, 3, 3] : List ModId).count 3 = 2 := ⟨rfl, rfl⟩

/-- C7 (amended): `GeneratorElaborator` and `InterfaceFlattener` memoize
per-module work keyed by module object identity — a module already in the
pass's cache is returned immediately with the pass state unchanged — while
`ImplicitSignals` and `ImplicitInterfaces` keep no such memoization and run
their full `elaborate_module` body once per referencing instance, as the
work logs of the shared-module example show. -/
theorem module_memoization_status :
    (∀ (env : Env) (fuel : Nat) (mid : ModId) (s : GenSt), mid ∈ s.modCache →
      geStep env (fuel + 1) (.module mid) s = .ok (some mid, s)) ∧
    (∀ (fuel : Nat) (mid : ModId) (s : FlatSt), mid ∈ s.modCache →
      ifStep (fuel + 1) (.module mid) s = .ok (some mid, s)) ∧
    (∃ st, isStep 10 (.module 0) ⟨heapC7, []⟩ = .ok (some 0, st) ∧ st.log.count 3 = 2) ∧
    (∃ st, iiStep 10 (.module 0) ⟨heapC7, []⟩ = .ok (some 0, st) ∧ st.log.count 3 = 2) := by
  refine ⟨?_, ?_, ?_, ?_⟩
  · intro env fuel mid s hmem
    rw [geStep]
    rw [if_pos hmem]
  · intro fuel mid s hmem
    rw [ifStep]
    rw [if_pos hmem]
  · exact ⟨_, rfl, rfl⟩
  · exact ⟨_, rfl, rfl⟩

theorem module_memoization_status_witness :
    geStep envC2 6 (.module 0) ⟨heapC2, [], [0], []⟩ =
      .ok (some 0, ⟨heapC2, [], [0], []⟩) ∧
    ifStep 6 (.module 0) ⟨heapC2, [0], [], []⟩ =
      .ok (some 0, ⟨heapC2, [0], [], []⟩) :=
  ⟨module_memoization_status.1 envC2 5 0 ⟨heapC2, [], [0], []⟩ (by decide),
   module_memoization_status.2.1 5 0 ⟨heapC2, [0], [], []⟩ (by decide)⟩

/-! ## Claim C6 -/

/-- A generator environment whose single generator function always returns
the identity-shared heap-resident Module `3` (a deterministic function, as
a Python generator returning a module-level constant Module would). -/
def envC6 : Env :=
  { gens := fun _ => { fname := "gen", usecontext := false },
    funcs := fun _ _ h => (h, .mod 3) }

/-- Top Module `P` with one instance `x` of GeneratorCall `2`
(generator `0`, argument `5`), whose result is the shared Module `Foo`. -/
def heapC6 : Heap :=
  { mods := [(0, { name := some "P", ports := [], signals := [],
                   instances := [("x", 1)], interfaces := [],
                   ns := [("x", .inst 1)] }),
             (3, { name := some "Foo", ports := [], signals := [], instances := [],
                   interfaces := [], ns := [] })]
    sigs := [], intfs := []
    insts := [(1, { name := "x", of := .gencall 2, conns := [], elaborated := false })]
    calls := [(2, { gen := 0, arg := 5, result := none })]
    fresh := 10 }

/-- Heap after the first default-pipeline elaboration of `P`. -/
def h1C6 : Heap :=
  match elaborate envC6 20 (.module 0) none heapC6 with
  | .ok (_, h) => h
  | .error _ => heapC6

/-- Heap after re-elaborating the already-elaborated result. -/
def h2C6 : Heap :=
  match elaborate envC6 20 (.module 0) none h1C6 with
  | .ok (_, h) => h
  | .error _ => h1C6

/-- C6 (counterexample): elaboration is not idempotent.  Both default
pipeline runs succeed and return the same top Module `P`, but the second
run re-invokes the generator function (the fresh pass object's
value-keyed cache is empty) and re-applies the rename
`m.name += "(" + _unique_name(call.arg) + ")"` to the identity-shared
result Module, so its name goes from `Foo(5)` to `Foo(5)(5)` and the
re-elaborated design differs from the elaborated one. -/
theorem elaborate_not_idempotent_counterexample :
    elaborate envC6 20 (.module 0) none heapC6 = .ok (.module 0, h1C6) ∧
    elaborate envC6 20 (.module 0) none h1C6 = .ok (.module 0, h2C6) ∧
    (alookup 3 h1C6.mods).map Module.name = some (some "Foo(5)") ∧
    (alookup 3 h2C6.mods).map Module.name = some (some "Foo(5)(5)") ∧
    h2C6 ≠ h1C6 := by
  refine ⟨rfl, rfl, rfl, rfl, ?_⟩
  intro he
  have h3 : (alookup 3 h1C6.mods).map Module.name = some (some "Foo(5)") := rfl
  rw [← he] at h3
  have h4 : (alookup 3 h2C6.mods).map Module.name = some (some "Foo(5)(5)") := rfl
  rw [h4] at h3
  exact absurd h3 (by decide)

/-- C6 (amended): re-elaboration is not the identity.  On every
cache-missing GeneratorCall, `elaborate_generator_call` runs the generator
function and renames the returned Module by appending
`"(" + _unique_name(arg) + ")"` to its current name — whatever that name
already is.  Since each `elaborate` call builds fresh pass objects with
empty caches, a second elaboration of an already-elaborated design
re-runs every generator and re-appends the suffix; in the concrete
two-run example the shared result Module is named `Foo(5)` after one run
and `Foo(5)(5)` after two. -/
theorem elaborate_reelaboration_renames :
    (∀ (env : Env) (f : Nat) (c : CallId) (s : GenSt) (r : GenCallRec) (h2 : Heap) (m : ModId) (mm : Module),
      alookup c s.heap.calls = some r →
      alookup (r.gen, r.arg) s.genCache = none →
      env.funcs r.gen r.arg s.heap = (h2, .mod m) →
      alookup m h2.mods = some mm →
      geStep env (f + 2) (.gcall c) s =
        geStep env (f + 1) (.module m) { heap := (h2.updCall c (fun q => { q with result := some m })).updMod m (fun mo => { mo with name := some ((mo.name.getD (env.gens r.gen).fname) ++ "(" ++ uniqueName r.arg ++ ")") }), genCache := ((r.gen, r.arg), m) :: s.genCache, modCache := s.modCache, log := s.log } ∧
      alookup m ((h2.updCall c (fun q => { q with result := some m })).updMod m (fun mo => { mo with name := some ((mo.name.getD (env.gens r.gen).fname) ++ "(" ++ uniqueName r.arg ++ ")") })).mods =
        some { mm with name := some ((mm.name.getD (env.gens r.gen).fname) ++ "(" ++ uniqueName r.arg ++ ")") }) ∧
    (alookup 3 h1C6.mods).map Module.name = some (some "Foo(5)") ∧
    (alookup 3 h2C6.mods).map Module.name = some (some "Foo(5)(5)") := by
  refine ⟨?_, rfl, rfl⟩
  intro env f c s r h2 m mm hr hk hfun hm
  have hfun1 : (env.funcs r.gen r.arg s.heap).1 = h2 := by rw [hfun]
  have hfun2 : (env.funcs r.gen r.arg s.heap).2 = GenRet.mod m := by rw [hfun]
  have hu : geStep env (f + 1) (.unwind (GenRet.mod m)) { s with heap := h2 } =
      .ok (some m, { s with heap := h2 }) := by
    rw [geStep]
    simp only [hm]
  constructor
  · rw [geStep]
    simp only [hr, hk, hfun1, hfun2, hu]
  · rw [alookup_updMod_self, updCall_mods, hm]
    rfl

/-! ## Claim C1: the elaborated hierarchy is interface-free -/

/-- The interface map of Module `mid` in heap `h`, if the module exists. -/
def interfacesAt (h : Heap) (mid : ModId) : Option (List (Name × IntfId)) :=
  (alookup mid h.mods).map Module.interfaces

/-- The instance list of Module `mid` in heap `h`. -/
def instancesAt (h : Heap) (mid : ModId) : Option (List (Name × InstId)) :=
  (alookup mid h.mods).map Module.instances

/-- The target of Instance `iid` in heap `h`. -/
def ofAt (h : Heap) (iid : InstId) : Option InstTarget :=
  (alookup iid h.insts).map Instanc.of

/-- `Instance._resolved` as a function of the bare target. -/
def resolveTarget (h : Heap) : InstTarget → Option Resolved
  | .module m => some (.module m)
  | .gencall c =>
    match alookup c h.calls with
    | some r => r.result.map .module
    | none => none
  | .prim => some .prim
  | .ext => some .ext

theorem resolvedOf_eq (h : Heap) (inst : Instanc) :
    h.resolvedOf inst = resolveTarget h inst.of := by
  cases hof : inst.of <;> simp [Heap.resolvedOf, resolveTarget, hof]

/-- Module `a` holds an Instance whose resolved target is Module `b`. -/
def InstEdge (h : Heap) (a b : ModId) : Prop :=
  ∃ l, instancesAt h a = some l ∧ ∃ p, p ∈ l ∧ ∃ t, ofAt h p.2 = some t ∧
    resolveTarget h t = some (.module b)

/-- The Modules reachable from `a` through resolved Instance targets. -/
inductive Reach (h : Heap) (a : ModId) : ModId → Prop where
  | refl : Reach h a a
  | step {b c : ModId} : Reach h a b → InstEdge h b c → Reach h a c

/-- Every Module reachable from `m` in `h` exists and carries an empty
interface map. -/
def IntfFreeFrom (h : Heap) (m : ModId) : Prop :=
  ∀ b, Reach h m b → interfacesAt h b = some []

/-- The hierarchy skeleton the traversal follows: instance lists, interface
maps, instance targets and generator-call records. -/
def SkelEq (h h' : Heap) : Prop :=
  (∀ mid, instancesAt h' mid = instancesAt h mid) ∧
  (∀ mid, interfacesAt h' mid = interfacesAt h mid) ∧
  (∀ iid, ofAt h' iid = ofAt h iid) ∧
  h'.calls = h.calls

theorem skelEq_refl (h : Heap) : SkelEq h h :=
  ⟨fun _ => rfl, fun _ => rfl, fun _ => rfl, rfl⟩

theorem skelEq_trans {h1 h2 h3 : Heap} (a : SkelEq h1 h2) (b : SkelEq h2 h3) :
    SkelEq h1 h3 :=
  ⟨fun mid => (b.1 mid).trans (a.1 mid), fun mid => (b.2.1 mid).trans (a.2.1 mid),
   fun iid => (b.2.2.1 iid).trans (a.2.2.1 iid), b.2.2.2.trans a.2.2.2⟩

theorem resolveTarget_congr {h h' : Heap} (hc : h'.calls = h.calls) (t : InstTarget) :
    resolveTarget h' t = resolveTarget h t := by
  cases t <;> simp [resolveTarget, hc]

theorem instEdge_of_skelEq {h h' : Heap} {a b : ModId} (hs : SkelEq h h')
    (he : InstEdge h' a b) : InstEdge h a b := by
  obtain ⟨l, hl, p, hp, t, ht, hres⟩ := he
  exact ⟨l, (hs.1 a).symm.trans hl, p, hp, t, (hs.2.2.1 p.2).symm.trans ht,
    (resolveTarget_congr hs.2.2.2 t).symm.trans hres⟩

theorem reach_of_skelEq {h h' : Heap} {a : ModId} (hs : SkelEq h h') :
    ∀ {b : ModId}, Reach h' a b → Reach h a b := by
  intro b hr
  induction hr with
  | refl => exact .refl
  | step h1 hedge ih => exact ih.step (instEdge_of_skelEq hs hedge)

theorem intfFreeFrom_of_skelEq {h h' : Heap} {m : ModId} (hs : SkelEq h h')
    (hf : IntfFreeFrom h m) : IntfFreeFrom h' m := by
  intro b hr
  rw [hs.2.1 b]
  exact hf b (reach_of_skelEq hs hr)

/-- First-step decomposition of reachability. -/
theorem reach_head {h : Heap} {a c : ModId} (hr : Reach h a c) :
    a = c ∨ ∃ b, InstEdge h a b ∧ Reach h b c := by
  induction hr with
  | refl => exact Or.inl rfl
  | step h1 hedge ih =>
    rcases ih with rfl | ⟨d, had, hdb⟩
    · exact Or.inr ⟨_, hedge, .refl⟩
    · exact Or.inr ⟨d, had, hdb.step hedge⟩

theorem addSig_instances (m : Module) (nm : Name) (sid : SigId) (vis : Visibility) :
    (m.addSig nm sid vis).instances = m.instances := by
  cases vis <;> rfl

theorem addSig_interfaces (m : Module) (nm : Name) (sid : SigId) (vis : Visibility) :
    (m.addSig nm sid vis).interfaces = m.interfaces := by
  cases vis <;> rfl

theorem skelEq_updInst (h : Heap) (iid : InstId) (f : Instanc → Instanc)
    (hf : ∀ i, (f i).of = i.of) : SkelEq h (h.updInst iid f) := by
  refine ⟨fun mid => ?_, fun mid => ?_, fun j => ?_, updInst_calls h iid f⟩
  · simp only [instancesAt, updInst_mods]
  · simp only [interfacesAt, updInst_mods]
  · simp only [ofAt]
    by_cases hj : j = iid
    · subst hj
      rw [alookup_updInst_self]
      cases halo : alookup j h.insts with
      | none => simp [halo]
      | some i => simp [halo, hf i]
    · rw [alookup_updInst_other h hj f]

theorem skelEq_updMod (h : Heap) (mid : ModId) (f : Module → Module)
    (hf1 : ∀ m, (f m).instances = m.instances)
    (hf2 : ∀ m, (f m).interfaces = m.interfaces) :
    SkelEq h (h.updMod mid f) := by
  refine ⟨fun j => ?_, fun j => ?_, fun iid => ?_, updMod_calls h mid f⟩
  · simp only [instancesAt]
    by_cases hj : j = mid
    · subst hj
      rw [alookup_updMod_self]
      cases halo : alookup j h.mods with
      | none => simp [halo]
      | some m => simp [halo, hf1 m]
    · rw [alookup_updMod_other h hj f]
  · simp only [interfacesAt]
    by_cases hj : j = mid
    · subst hj
      rw [alookup_updMod_self]
      cases halo : alookup j h.mods with
      | none => simp [halo]
      | some m => simp [halo, hf2 m]
    · rw [alookup_updMod_other h hj f]
  · simp only [ofAt, updMod_insts]

theorem skelEq_allocSig (h : Heap) (r : Signal) : SkelEq h (h.allocSig r).1 :=
  ⟨fun _ => rfl, fun _ => rfl, fun _ => rfl, rfl⟩

theorem rewireNet_skel (c : Conn) :
    ∀ (net : List PortRef) (h h' : Heap), rewireNet c net h = .ok h' → SkelEq h h' := by
  intro net
  induction net with
  | nil =>
    intro h h' hr
    rw [rewireNet] at hr
    obtain rfl : h = h' := Except.ok.inj hr
    exact skelEq_refl h
  | cons p rest ih =>
    intro h h' hr
    rw [rewireNet] at hr
    cases hpo : p.owner with
    | intf i =>
      simp only [hpo] at hr
      exact Except.noConfusion hr
    | inst i =>
      simp only [hpo] at hr
      exact skelEq_trans
        (skelEq_updInst h i (fun inst => { inst with conns := aupd p.portname c inst.conns })
          (fun _ => rfl)) (ih _ _ hr)

theorem processNetIS_skel (mid : ModId) (net : List PortRef) (h h' : Heap)
    (hp : processNetIS mid net h = .ok h') : SkelEq h h' := by
  rw [processNetIS] at hp
  cases hfs : findNetSig h net with
  | error e => simp only [hfs] at hp; exact Except.noConfusion hp
  | ok osig =>
    cases osig with
    | some sid =>
      simp only [hfs] at hp
      exact rewireNet_skel _ _ _ _ hp
    | none =>
      simp only [hfs] at hp
      cases hm : alookup mid h.mods with
      | none => simp only [hm] at hp; exact Except.noConfusion hp
      | some m =>
        simp only [hm] at hp
        cases hseg : h.netSegments net with
        | error e => simp only [hseg] at hp; exact Except.noConfusion hp
        | ok segments =>
          simp only [hseg] at hp
          cases hfn : flatname segments (akeys m.ns) with
          | error e => simp only [hfn] at hp; exact Except.noConfusion hp
          | ok signame =>
            simp only [hfn] at hp
            cases hlast : net.getLast? with
            | none => simp only [hlast] at hp; exact Except.noConfusion hp
            | some lastref =>
              simp only [hlast] at hp
              cases hlo : lastref.owner with
              | intf i => simp only [hlo] at hp; exact Except.noConfusion hp
              | inst iid =>
                simp only [hlo] at hp
                cases hii : alookup iid h.insts with
                | none => simp only [hii] at hp; exact Except.noConfusion hp
                | some inst =>
                  simp only [hii] at hp
                  cases hro : h.resolvedOf inst with
                  | none => simp only [hro] at hp; exact Except.noConfusion hp
                  | some rv =>
                    cases rv with
                    | prim => simp only [hro] at hp; exact Except.noConfusion hp
                    | ext => simp only [hro] at hp; exact Except.noConfusion hp
                    | module lm =>
                      simp only [hro] at hp
                      cases hlm : alookup lm h.mods with
                      | none => simp only [hlm] at hp; exact Except.noConfusion hp
                      | some lastmod =>
                        simp only [hlm] at hp
                        cases hports : alookup lastref.portname lastmod.ports with
                        | none => simp only [hports] at hp; exact Except.noConfusion hp
                        | some psid =>
                          simp only [hports] at hp
                          cases hsg : alookup psid h.sigs with
                          | none => simp only [hsg] at hp; exact Except.noConfusion hp
                          | some ps =>
                            simp only [hsg] at hp
                            exact skelEq_trans (skelEq_trans (skelEq_allocSig h _)
                              (skelEq_updMod _ mid _
                                (fun mm => addSig_instances mm signame _ .INTERNAL)
                                (fun mm => addSig_interfaces mm signame _ .INTERNAL)))
                              (rewireNet_skel _ _ _ _ hp)

theorem processNetsIS_skel (mid : ModId) :
    ∀ (nets : List (List PortRef)) (h h' : Heap),
      processNetsIS mid nets h = .ok h' → SkelEq h h' := by
  intro nets
  induction nets with
  | nil =>
    intro h h' hp
    rw [processNetsIS] at hp
    obtain rfl : h = h' := Except.ok.inj hp
    exact skelEq_refl h
  | cons net rest ih =>
    intro h h' hp
    rw [processNetsIS] at hp
    cases hq : processNetIS mid net h with
    | error e => simp only [hq] at hp; exact Except.noConfusion hp
    | ok h2 =>
      simp only [hq] at hp
      exact skelEq_trans (processNetIS_skel mid net h h2 hq) (ih h2 h' hp)

/-- `ImplicitSignals.elaborate_module` returns the very Module it was
given. -/
theorem isStep_module_val :
    ∀ (fuel : Nat) (mid : ModId) (s : SimpleSt) (v : Option ModId) (s' : SimpleSt),
      isStep fuel (.module mid) s = .ok (v, s') → v = some mid := by
  intro fuel mid s v s' h
  match fuel with
  | 0 =>
    rw [isStep] at h
    exact Except.noConfusion h
  | f + 1 =>
    rw [isStep] at h
    cases hm : alookup mid s.heap.mods with
    | none => simp only [hm] at h; exact Except.noConfusion h
    | some m =>
      simp only [hm] at h
      rcases hmi : m.interfaces with _ | ⟨i0, irest⟩
      · have hcond : ¬(m.interfaces ≠ []) := by rw [hmi]; exact fun hc => hc rfl
        rw [if_neg hcond] at h
        cases hin : isStep f (.insts m.instances) { s with log := s.log ++ [mid] } with
        | error e => simp only [hin] at h; exact Except.noConfusion h
        | ok pr1 =>
          obtain ⟨o1, s1⟩ := pr1
          simp only [hin] at h
          cases hm1 : alookup mid s1.heap.mods with
          | none => simp only [hm1] at h; exact Except.noConfusion h
          | some m1 =>
            simp only [hm1] at h
            cases hpn : processNetsIS mid (buildNets (buildPortconnsIS s1.heap m1.instances)) s1.heap with
            | error e => simp only [hpn] at h; exact Except.noConfusion h
            | ok h2 =>
              simp only [hpn] at h
              exact (congrArg Prod.fst (Except.ok.inj h)).symm
      · have hcond : m.interfaces ≠ [] := by rw [hmi]; exact List.cons_ne_nil _ _
        rw [if_pos hcond] at h
        exact Except.noConfusion h

/-- Soundness of the `ImplicitSignals` traversal: a successful run leaves
the hierarchy skeleton unchanged, and (for a module task) every module
reachable from the task's module in the final heap exists and has an empty
interface map — the pass's own entry check (elab.py line 237) has fired on
each of them. -/
theorem isStep_intf_free :
    ∀ (fuel : Nat) (task : PassTask) (s : SimpleSt) (out : Option ModId) (s' : SimpleSt),
      isStep fuel task s = .ok (out, s') →
      SkelEq s.heap s'.heap ∧
      (∀ mid, task = .module mid → IntfFreeFrom s'.heap mid) ∧
      (∀ l, task = .insts l → ∀ p, p ∈ l → ∀ t, ofAt s'.heap p.2 = some t →
        ∀ m', resolveTarget s'.heap t = some (.module m') → IntfFreeFrom s'.heap m') ∧
      (∀ iid, task = .inst iid → ∀ t, ofAt s'.heap iid = some t →
        ∀ m', resolveTarget s'.heap t = some (.module m') → IntfFreeFrom s'.heap m') := by
  intro fuel
  induction fuel with
  | zero =>
    intro task s out s' hstep
    rw [isStep] at hstep
    exact Except.noConfusion hstep
  | succ f ih =>
    intro task s out s' hstep
    cases task with
    | module mid =>
      rw [isStep] at hstep
      cases hm : alookup mid s.heap.mods with
      | none => simp only [hm] at hstep; exact Except.noConfusion hstep
      | some m =>
        simp only [hm] at hstep
        rcases hmi : m.interfaces with _ | ⟨i0, irest⟩
        · have hcond : ¬(m.interfaces ≠ []) := by rw [hmi]; exact fun hc => hc rfl
          rw [if_neg hcond] at hstep
          cases hin : isStep f (.insts m.instances) { s with log := s.log ++ [mid] } with
          | error e => simp only [hin] at hstep; exact Except.noConfusion hstep
          | ok pr1 =>
            obtain ⟨o1, s1⟩ := pr1
            simp only [hin] at hstep
            cases hm1 : alookup mid s1.heap.mods with
            | none => simp only [hm1] at hstep; exact Except.noConfusion hstep
            | some m1 =>
              simp only [hm1] at hstep
              cases hpn : processNetsIS mid (buildNets (buildPortconnsIS s1.heap m1.instances)) s1.heap with
              | error e => simp only [hpn] at hstep; exact Except.noConfusion hstep
              | ok h2 =>
                simp only [hpn] at hstep
                have h9 := Except.ok.inj hstep
                have hs' : s' = { s1 with heap := h2 } := (congrArg Prod.snd h9).symm
                subst hs'
                obtain ⟨hskel1, _, hinsts, _⟩ :=
                  ih (.insts m.instances) { s with log := s.log ++ [mid] } o1 s1 hin
                have hskel2 : SkelEq s1.heap h2 := processNetsIS_skel mid _ s1.heap h2 hpn
                have hskel : SkelEq s.heap h2 := skelEq_trans hskel1 hskel2
                refine ⟨hskel, ?_, ?_, ?_⟩
                · intro mid' hq
                  cases hq
                  show IntfFreeFrom h2 mid
                  intro b hreach
                  rcases reach_head hreach with rfl | ⟨d, hedge, hreach2⟩
                  · rw [hskel.2.1 mid]
                    simp [interfacesAt, hm, hmi]
                  · have hedge1 : InstEdge s1.heap mid d := instEdge_of_skelEq hskel2 hedge
                    obtain ⟨l, hl, p, hp, t, ht, hres⟩ := hedge1
                    have hl2 : instancesAt s1.heap mid = some m.instances := by
                      rw [hskel1.1 mid]
                      simp [instancesAt, hm]
                    obtain rfl : l = m.instances := Option.some.inj (hl.symm.trans hl2)
                    have hfree1 : IntfFreeFrom s1.heap d :=
                      hinsts m.instances rfl p hp t ht d hres
                    exact intfFreeFrom_of_skelEq hskel2 hfree1 b hreach2
                · intro l2 hq
                  exact PassTask.noConfusion hq
                · intro iid hq
                  exact PassTask.noConfusion hq
        · have hcond : m.interfaces ≠ [] := by rw [hmi]; exact List.cons_ne_nil _ _
          rw [if_pos hcond] at hstep
          exact Except.noConfusion hstep
    | insts l =>
      cases l with
      | nil =>
        rw [isStep] at hstep
        have h9 := Except.ok.inj hstep
        have hs' : s' = s := (congrArg Prod.snd h9).symm
        subst hs'
        refine ⟨skelEq_refl _, ?_, ?_, ?_⟩
        · intro mid hq
          exact PassTask.noConfusion hq
        · intro l2 hq p hp
          cases hq
          exact absurd hp (List.not_mem_nil p)
        · intro iid hq
          exact PassTask.noConfusion hq
      | cons p rest =>
        rw [isStep] at hstep
        cases h1 : isStep f (.inst p.2) s with
        | error e => simp only [h1] at hstep; exact Except.noConfusion hstep
        | ok pr1 =>
          obtain ⟨o1, s1⟩ := pr1
          simp only [h1] at hstep
          obtain ⟨hskel1, _, _, hinst1⟩ := ih (.inst p.2) s o1 s1 h1
          obtain ⟨hskel2, _, hinsts2, _⟩ := ih (.insts rest) s1 out s' hstep
          refine ⟨skelEq_trans hskel1 hskel2, ?_, ?_, ?_⟩
          · intro mid hq
            exact PassTask.noConfusion hq
          · intro l2 hq q hqmem t ht m' hres
            cases hq
            rcases List.mem_cons.mp hqmem with rfl | hqr
            · have ht1 : ofAt s1.heap q.2 = some t := (hskel2.2.2.1 q.2).symm.trans ht
              have hres1 : resolveTarget s1.heap t = some (.module m') :=
                (resolveTarget_congr hskel2.2.2.2 t).symm.trans hres
              exact intfFreeFrom_of_skelEq hskel2 (hinst1 q.2 rfl t ht1 m' hres1)
            · exact hinsts2 rest rfl q hqr t ht m' hres
          · intro iid hq
            exact PassTask.noConfusion hq
    | inst iid =>
      rw [isStep] at hstep
      cases hli : alookup iid (s.heap.updInst iid (fun i => { i with elaborated := true })).insts with
      | none => simp only [hli] at hstep; exact Except.noConfusion hstep
      | some inst =>
        simp only [hli] at hstep
        cases hro : (s.heap.updInst iid (fun i => { i with elaborated := true })).resolvedOf inst with
        | none => simp only [hro] at hstep; exact Except.noConfusion hstep
        | some rv =>
          have hski : SkelEq s.heap (s.heap.updInst iid (fun i => { i with elaborated := true })) :=
            skelEq_updInst s.heap iid _ (fun _ => rfl)
          have hofat : ofAt (s.heap.updInst iid (fun i => { i with elaborated := true })) iid = some inst.of := by
            simp [ofAt, hli]
          cases rv with
          | module m' =>
            simp only [hro] at hstep
            obtain ⟨hskel3, hmod3, _, _⟩ :=
              ih (.module m') { s with heap := s.heap.updInst iid (fun i => { i with elaborated := true }) } out s' hstep
            refine ⟨skelEq_trans hski hskel3, ?_, ?_, ?_⟩
            · intro mid hq
              exact PassTask.noConfusion hq
            · intro l2 hq
              exact PassTask.noConfusion hq
            · intro iid' hq t ht m'' hres
              cases hq
              have ht1 : ofAt (s.heap.updInst iid (fun i => { i with elaborated := true })) iid = some t :=
                (hskel3.2.2.1 iid).symm.trans ht
              obtain rfl : inst.of = t := Option.some.inj (hofat.symm.trans ht1)
              have hres1 : resolveTarget (s.heap.updInst iid (fun i => { i with elaborated := true })) inst.of = some (.module m'') :=
                (resolveTarget_congr hskel3.2.2.2 inst.of).symm.trans hres
              have hres2 : (some (Resolved.module m') : Option Resolved) = some (.module m'') :=
                (hro.symm.trans (resolvedOf_eq _ inst)).trans hres1
              obtain rfl : m' = m'' := by
                injection Option.some.inj hres2
              exact hmod3 m' rfl
          | prim =>
            simp only [hro] at hstep
            have h9 := Except.ok.inj hstep
            have hs' : s' = { s with heap := s.heap.updInst iid (fun i => { i with elaborated := true }) } :=
              (congrArg Prod.snd h9).symm
            subst hs'
            refine ⟨hski, ?_, ?_, ?_⟩
            · intro mid hq
              exact PassTask.noConfusion hq
            · intro l2 hq
              exact PassTask.noConfusion hq
            · intro iid' hq t ht m'' hres
              cases hq
              have ht1 : ofAt (s.heap.updInst iid (fun i => { i with elaborated := true })) iid = some t := ht
              obtain rfl : inst.of = t := Option.some.inj (hofat.symm.trans ht1)
              have hres2 : (some Resolved.prim : Option Resolved) = some (.module m'') :=
                (hro.symm.trans (resolvedOf_eq _ inst)).trans hres
              exact Resolved.noConfusion (Option.some.inj hres2)
          | ext =>
            simp only [hro] at hstep
            have h9 := Except.ok.inj hstep
            have hs' : s' = { s with heap := s.heap.updInst iid (fun i => { i with elaborated := true }) } :=
              (congrArg Prod.snd h9).symm
            subst hs'
            refine ⟨hski, ?_, ?_, ?_⟩
            · intro mid hq
              exact PassTask.noConfusion hq
            · intro l2 hq
              exact PassTask.noConfusion hq
            · intro iid' hq t ht m'' hres
              cases hq
              have ht1 : ofAt (s.heap.updInst iid (fun i => { i with elaborated := true })) iid = some t := ht
              obtain rfl : inst.of = t := Option.some.inj (hofat.symm.trans ht1)
              have hres2 : (some Resolved.ext : Option Resolved) = some (.module m'') :=
                (hro.symm.trans (resolvedOf_eq _ inst)).trans hres
              exact Resolved.noConfusion (Option.some.inj hres2)

/-- C1: for every input that elaborates successfully under the default pass
list, the returned top Module and every Module reachable from it through
Instance targets contains no InterfaceInstance: each module's interface map
is empty after elaboration.  The guarantee comes from the final
`ImplicitSignals` pass, whose `elaborate_module` body rejects any visited
Module with a non-empty interface map and is run on every module reachable
from the top through resolved instance targets. -/
theorem elaborated_interface_free (env : Env) (fuel : Nat) (top : Elabable)
    (h hfin : Heap) (res : Elabable)
    (hel : elaborate env fuel top none h = .ok (res, hfin)) :
    ∀ r, res = .module r → IntfFreeFrom hfin r := by
  intro r hres
  subst hres
  rw [elaborate, resolvePasses, ElabPassesList, runPasses] at hel
  cases hp1 : runPass env fuel .RUN_GENERATORS top h with
  | error e => simp only [hp1] at hel; exact Except.noConfusion hel
  | ok pr1 =>
    obtain ⟨r1, h1⟩ := pr1
    simp only [hp1] at hel
    rw [runPasses] at hel
    cases hp2 : runPass env fuel .IMPLICIT_INTERFACES (.module r1) h1 with
    | error e => simp only [hp2] at hel; exact Except.noConfusion hel
    | ok pr2 =>
      obtain ⟨r2, h2q⟩ := pr2
      simp only [hp2] at hel
      rw [runPasses] at hel
      cases hp3 : runPass env fuel .FLATTEN_INTERFACES (.module r2) h2q with
      | error e => simp only [hp3] at hel; exact Except.noConfusion hel
      | ok pr3 =>
        obtain ⟨r3, h3q⟩ := pr3
        simp only [hp3] at hel
        rw [runPasses] at hel
        cases hp4 : runPass env fuel .IMPLICIT_SIGNALS (.module r3) h3q with
        | error e => simp only [hp4] at hel; exact Except.noConfusion hel
        | ok pr4 =>
          obtain ⟨r4, h4q⟩ := pr4
          simp only [hp4] at hel
          rw [runPasses] at hel
          have h9 := Except.ok.inj hel
          have hr4 : Elabable.module r4 = .module r := congrArg Prod.fst h9
          have hh4 : h4q = hfin := congrArg Prod.snd h9
          have hr4' : r4 = r := by injection hr4
          rw [← hh4, ← hr4']
          rw [runPass] at hp4
          cases his : isStep fuel (.module r3) ⟨h3q, []⟩ with
          | error e => simp only [his] at hp4; exact Except.noConfusion hp4
          | ok pri =>
            obtain ⟨oi, si⟩ := pri
            cases oi with
            | none => simp only [his] at hp4; exact Except.noConfusion hp4
            | some rr =>
              simp only [his] at hp4
              have h8 := Except.ok.inj hp4
              have hrr : rr = r4 := congrArg Prod.fst h8
              have hsi : si.heap = h4q := congrArg Prod.snd h8
              have hv := isStep_module_val fuel r3 ⟨h3q, []⟩ (some rr) si his
              obtain ⟨_, hmodc, _, _⟩ :=
                isStep_intf_free fuel (.module r3) ⟨h3q, []⟩ (some rr) si his
              have hfree : IntfFreeFrom si.heap r3 := hmodc r3 rfl
              rw [← hsi, ← hrr, Option.some.inj hv]
              exact hfree

/-- Final heap of a successful default-pipeline run on the shared-module
design `heapC7`. -/
def hC1fin : Heap :=
  match elaborate envC6 20 (.module 0) none heapC7 with
  | .ok (_, hh) => hh
  | .error _ => heapC7

theorem elaborated_interface_free_witness :
    interfacesAt hC1fin 3 = some [] :=
  elaborated_interface_free envC6 20 (.module 0) heapC7 hC1fin (.module 0) rfl 0 rfl 3
    (Reach.step Reach.refl
      ⟨[("a", 1), ("b", 2)], rfl, ("a", 1), List.mem_cons_self _ _, .module 3, rfl, rfl⟩)

theorem elaborate_reelaboration_renames_witness :
    geStep envC6 2 (.gcall 2) ⟨heapC6, [], [], []⟩ =
      geStep envC6 1 (.module 3) { heap := (heapC6.updCall 2 (fun q => { q with result := some 3 })).updMod 3 (fun mo => { mo with name := some ((mo.name.getD (envC6.gens 0).fname) ++ "(" ++ uniqueName (5 : Arg) ++ ")") }), genCache := [((0, 5), 3)], modCache := [], log := [] } :=
  (elaborate_reelaboration_renames.1 envC6 0 2 ⟨heapC6, [], [], []⟩
    { gen := 0, arg := 5, result := none } heapC6 3
    { name := some "Foo", ports := [], signals := [], instances := [],
      interfaces := [], ns := [] } rfl rfl rfl rfl).1

/-! ## Claim C9: `elab_all` / `_list_elabables_helper` (elab.py lines 553-578) -/

/-- The universe of Python values `_list_elabables_helper` can meet: the
elaboration candidates (`Module`, `Generator`, `GeneratorCall`, elab.py
lines 30-38), ordered lists, `SimpleNamespace` records with string-keyed
attributes, and any other (non-candidate, non-container) leaf. -/
inductive PyVal where
  | mod (m : ModId)
  | gen (g : GenId)
  | gcall (c : CallId)
  | list (l : List PyVal)
  | ns (l : List (Name × PyVal))
  | other

/-- `elabable(obj)` (elab.py lines 36-38): a Module, Generator or
GeneratorCall. -/
def elabable : PyVal → Bool
  | .mod _ => true
  | .gen _ => true
  | .gcall _ => true
  | _ => false

/-- `isinstance(obj, (SimpleNamespace, list))`. -/
def isContainer : PyVal → Bool
  | .list _ => true
  | .ns _ => true
  | _ => false

/-- Traversal positions of `_list_elabables_helper`: a single value, the
elements of a list, or the attribute values of a namespace. -/
inductive LTask where
  | one (v : PyVal)
  | many (l : List PyVal)
  | nsl (l : List (Name × PyVal))

/-- `_list_elabables_helper` (elab.py lines 565-578), on structural fuel:
append candidates, recurse through lists and namespaces; a namespace
attribute that is neither a candidate nor a container is skipped (line
573's comment: "this skips over non-elaboratable items ... where the list
demands all be suitable"); any other leaf raises `TypeError`. -/
def listHelp : Nat → LTask → Except Err (List Elabable)
  | 0, _ => .error .outOfFuel
  | _ + 1, .one (.mod m) => .ok [.module m]
  | _ + 1, .one (.gen g) => .ok [.gen g]
  | _ + 1, .one (.gcall c) => .ok [.gcall c]
  | fuel + 1, .one (.list l) => listHelp fuel (.many l)
  | fuel + 1, .one (.ns l) => listHelp fuel (.nsl l)
  | _ + 1, .one .other => .error (.typeError "Attempting Invalid Elaboration")
  | _ + 1, .many [] => .ok []
  | fuel + 1, .many (v :: rest) =>
    match listHelp fuel (.one v) with
    | .error e => .error e
    | .ok a =>
      match listHelp fuel (.many rest) with
      | .error e => .error e
      | .ok b => .ok (a ++ b)
  | _ + 1, .nsl [] => .ok []
  | fuel + 1, .nsl (p :: rest) =>
    if isContainer p.2 || elabable p.2 then
      match listHelp fuel (.one p.2) with
      | .error e => .error e
      | .ok a =>
        match listHelp fuel (.nsl rest) with
        | .error e => .error e
        | .ok b => .ok (a ++ b)
    else
      listHelp fuel (.nsl rest)

/-- The comprehension `[elaborate(top=t, **kwargs) for t in ls]`
(line 562), threading the heap left to right. -/
def elabEach (env : Env) (fuel : Nat) (passes : Option (List ElabPass)) :
    List Elabable → Heap → Except Err (List Elabable × Heap)
  | [], h => .ok ([], h)
  | t :: rest, h =>
    match elaborate env fuel t passes h with
    | .error e => .error e
    | .ok (r, h') =>
      match elabEach env fuel passes rest h' with
      | .error e => .error e
      | .ok (rs, h2) => .ok (r :: rs, h2)

/-- `elab_all` (elab.py lines 553-562): collect candidates, then elaborate
each and return the results as a list. -/
def elabAll (env : Env) (fuel : Nat) (passes : Option (List ElabPass))
    (top : PyVal) (h : Heap) : Except Err (List Elabable × Heap) :=
  match listHelp fuel (.one top) with
  | .error e => .error e
  | .ok ls => elabEach env fuel passes ls h

/-- Final heap of `elab_all` on a namespace holding one junk attribute and
one Module. -/
def hC9fin : Heap :=
  match elabAll envC6 20 none (.ns [("junk", .other), ("m", .mod 0)]) heapC7 with
  | .ok (_, hh) => hh
  | .error _ => heapC7

/-- C9 (counterexample): a namespace attribute that is a non-candidate,
non-container leaf does not raise a fatal type error — `_list_elabables_helper`
silently skips it (elab.py lines 572-576), collecting nothing; `elab_all`
on such a namespace succeeds with an empty result list.  The type error
fires only when the leaf sits at top level or inside a list. -/
theorem ns_noncandidate_skipped_counterexample :
    listHelp 3 (.one (.ns [("a", .other)])) = .ok [] ∧
    elabAll envC6 20 none (.ns [("a", .other)]) heapC7 = .ok ([], heapC7) ∧
    listHelp 3 (.one .other) = .error (.typeError "Attempting Invalid Elaboration") :=
  ⟨rfl, rfl, rfl⟩

/-- C9 (amended): `elab_all` recursively flattens its input — single
Module/Generator/GeneratorCall candidates, lists of them, and namespace
records — elaborates every candidate found and returns the results as a
list; a non-candidate leaf that is not a container raises a fatal type
error when it sits at top level or inside a list, but such a leaf among a
namespace's attributes is skipped without error. -/
theorem elab_all_flattening :
    (∀ (fuel : Nat) (m : ModId), listHelp (fuel + 1) (.one (.mod m)) = .ok [.module m]) ∧
    (∀ (fuel : Nat) (g : GenId), listHelp (fuel + 1) (.one (.gen g)) = .ok [.gen g]) ∧
    (∀ (fuel : Nat) (c : CallId), listHelp (fuel + 1) (.one (.gcall c)) = .ok [.gcall c]) ∧
    (∀ (fuel : Nat) (l : List PyVal),
      listHelp (fuel + 1) (.one (.list l)) = listHelp fuel (.many l)) ∧
    (∀ fuel : Nat,
      listHelp (fuel + 1) (.one .other) = .error (.typeError "Attempting Invalid Elaboration")) ∧
    (∀ (fuel : Nat) (v : PyVal) (rest : List PyVal), listHelp (fuel + 1) (.one v) = .error (.typeError "Attempting Invalid Elaboration") →
      listHelp (fuel + 2) (.many (v :: rest)) = .error (.typeError "Attempting Invalid Elaboration")) ∧
    (∀ (fuel : Nat) (nm : Name) (v : PyVal) (rest : List (Name × PyVal)),
      (isContainer v || elabable v) = false →
      listHelp (fuel + 1) (.nsl ((nm, v) :: rest)) = listHelp fuel (.nsl rest)) ∧
    elabAll envC6 20 none (.ns [("junk", .other), ("m", .mod 0)]) heapC7 =
      .ok ([.module 0], hC9fin) := by
  refine ⟨fun _ _ => rfl, fun _ _ => rfl, fun _ _ => rfl, fun _ _ => rfl, fun _ => rfl,
    ?_, ?_, rfl⟩
  · intro fuel v rest herr
    rw [listHelp]
    have hv : listHelp (fuel + 1) (.one v) = .error (.typeError "Attempting Invalid Elaboration") := herr
    rw [hv]
  · intro fuel nm v rest hcond
    rw [listHelp]
    have hfalse : ¬ ((isContainer (nm, v).2 || elabable (nm, v).2) = true) := by
      show ¬ ((isContainer v || elabable v) = true)
      rw [hcond]
      exact Bool.false_ne_true
    rw [if_neg hfalse]

theorem elab_all_flattening_witness :
    listHelp 3 (.nsl [("a", PyVal.other)]) = listHelp 2 (.nsl []) ∧
    listHelp 4 (.many [PyVal.other, .mod 0]) =
      .error (.typeError "Attempting Invalid Elaboration") :=
  ⟨elab_all_flattening.2.2.2.2.2.2.1 2 "a" .other [] rfl,
   elab_all_flattening.2.2.2.2.2.1 2 .other [.mod 0] rfl⟩

end Hdl21
